import Mathlib

/-! GcodeDispatch: the command-ingestion layer.

A shallow embedding of `src/modules/communication/GcodeDispatch.cpp`
(`is_allowed_mcode`, `GcodeDispatch::init`,
`GcodeDispatch::on_console_line_received`) and theorems about it.

A `std::string` is a list of characters; `string::npos` is `none`.
-/

namespace GcodeDispatch

/-- A `std::string`. -/
abbrev Str := List Char

/-! ## `std::string` operations used by the dispatcher -/

/-- Index of the first character at or after running index `i` that satisfies `p`. -/
def findFrom (p : Char → Bool) : Str → Nat → Option Nat
  | [], _ => none
  | c :: cs, i => if p c then some i else findFrom p cs (i + 1)

/-- The call `s.find_first_of(chars, pos)`. -/
def find_first_of (s : Str) (chars : Str) (pos : Nat) : Option Nat :=
  findFrom (fun c => chars.contains c) (s.drop pos) pos

/-- The call `s.find_first_not_of(chars)`. -/
def find_first_not_of (s : Str) (chars : Str) : Option Nat :=
  findFrom (fun c => !chars.contains c) s 0

/-- Index of the first suffix, at or after running index `i`, that starts with `pat`. -/
def findSubFrom (pat : Str) : Str → Nat → Option Nat
  | [], i => if pat.isEmpty then some i else none
  | c :: cs, i => if pat.isPrefixOf (c :: cs) then some i else findSubFrom pat cs (i + 1)

/-- The call `s.find(pat)`. -/
def find (s : Str) (pat : Str) : Option Nat :=
  findSubFrom pat s 0

/-- The call `s.substr(pos)`. -/
def substr_from (s : Str) (pos : Nat) : Str := s.drop pos

/-- The call `s.substr(0, n)`. -/
def substr_to (s : Str) (n : Nat) : Str := s.take n

/-- The call `s.erase(pos, n)`. -/
def erase (s : Str) (pos n : Nat) : Str := s.take pos ++ s.drop (pos + n)

/-- The expression `s[0]`: the first character, the terminating NUL for an empty string. -/
def first_char_of (s : Str) : Char := s.headD (Char.ofNat 0)

/-! ## The Command Splitter (lines 116-152) -/

/-- The boundary search of one pass of the `while` loop (lines 122-144): the new value of
`cmd_pos`. The variable is declared outside the loop, so a first character other than
G, M, T, S leaves the previous value `prev` in place. -/
def next_cmd_pos (possible_command : Str) (prev : Option Nat) : Option Nat :=
  let first_char := first_char_of possible_command
  if first_char = 'G' then
    if (find_first_of possible_command "S".toList 2).isSome
        && (find_first_of possible_command "M".toList 2).isSome then
      find_first_of possible_command "GMST".toList 2
    else
      find_first_of possible_command "GMT".toList 2
  else if first_char = 'M' then
    find_first_of possible_command "GM".toList 2
  else if first_char = 'T' ∨ first_char = 'S' then
    match find_first_of possible_command "M".toList 2 with
    | none => find_first_of possible_command "GST".toList 2
    | some m => find_first_of possible_command "GMST".toList (m + 2)
  else prev

/-- Lines 146-152: `single_command` and the new `possible_command`. -/
def cut (possible_command : Str) (cmd_pos : Option Nat) : Str × Str :=
  match cmd_pos with
  | none => (possible_command, [])
  | some p => (substr_to possible_command p, substr_from possible_command p)

/-- The splitting loop as a function of the line alone: the `single_command` values in
the order they are produced. `fuel` bounds the number of passes; `none` means the bound
was reached. `cmd_pos` is the value the variable has when the loop is entered. -/
def split_loop : Nat → Str → Option Nat → Option (List Str)
  | 0, _, _ => none
  | fuel + 1, possible_command, cmd_pos =>
    if possible_command.length > 0 then
      let cmd_pos := next_cmd_pos possible_command cmd_pos
      let sr := cut possible_command cmd_pos
      match split_loop fuel sr.2 cmd_pos with
      | none => none
      | some cmds => some (sr.1 :: cmds)
    else some []

/-- The commands the loop of lines 118-152 splits a line into (`cmd_pos` starts as
`string::npos`, line 117). -/
def split_commands (fuel : Nat) (line : Str) : Option (List Str) :=
  split_loop fuel line none

/-! ## Collaborators

`utils/Gcode.h`, `libs/Kernel.h`, `Robot.h` and `utils.h` are not among the sources. The
dispatcher is embedded over an arbitrary decoder and an arbitrary executor (`Env`). -/

/-- The fields of a `Gcode` object that the dispatcher reads before the command is handed
to the executor. `g` and `m` are unsigned. -/
structure Gcode where
  command : Str
  has_g : Bool
  g : Nat
  has_m : Bool
  m : Nat
deriving DecidableEq, Repr

/-- What the `ON_GCODE_RECEIVED` handlers leave behind: the outcome fields of the `Gcode`
object (`is_error`, `txt_after_ok` as the C string that `printf` prints, `add_nl`) and the
state outside the dispatcher (`THEKERNEL.is_halted()`, `THEROBOT.next_command_is_MCS`,
and the rest of the firmware, `ext`). -/
structure ExecResult (σ : Type) where
  is_error : Bool
  txt_after_ok : Str
  add_nl : Bool
  halted : Bool
  next_command_is_MCS : Bool
  ext : σ

/-- The collaborators of the dispatcher. `σ` is the state of the rest of the firmware.
* `new_Gcode command strip` is `new Gcode(command, stream, strip, line)`;
* `set_variable_value` is `Gcode::set_variable_value`;
* `on_gcode_received gcode halted mcs ext` is what the handlers of `ON_GCODE_RECEIVED` do;
* `on_halt cleared ext` is what the handlers of `ON_HALT` do to the rest of the firmware;
* `is_ok_per_line` is `THEKERNEL.is_ok_per_line()`. -/
structure Env (σ : Type) where
  new_Gcode : Str → Bool → Gcode
  set_variable_value : Gcode → σ → Gcode × σ
  on_gcode_received : Gcode → Bool → Bool → σ → ExecResult σ
  on_halt : Bool → σ → σ
  is_ok_per_line : Bool

/-- One command handed to the executor, with `THEKERNEL.is_halted()` and
`THEROBOT.next_command_is_MCS` as they were at that moment. -/
structure Sent where
  gcode : Gcode
  halted : Bool
  mcs : Bool
deriving DecidableEq, Repr

/-- The state the dispatcher works on: its member `modal_group_1`, the kernel's halt
flag, the robot's `next_command_is_MCS`, the rest of the firmware, and two logs: `out`,
the `printf` calls made on the reply stream, and `sent`, the commands handed to the
executor. -/
structure State (σ : Type) where
  modal_group_1 : Nat
  halted : Bool
  next_command_is_MCS : Bool
  ext : σ
  out : List Str
  sent : List Sent

variable {σ : Type}

/-- `GcodeDispatch::init` (lines 38-41). -/
def init (st : State σ) : State σ := { st with modal_group_1 := 0 }

/-- One `new_message.stream->printf(...)` call. -/
def printf (st : State σ) (s : Str) : State σ := { st with out := st.out ++ [s] }

/-- Modelled from the spec: `THEKERNEL.call_event(ON_HALT, arg)`; the kernel is not among
the sources. A null argument latches MachineMode to Halted ("unconditionally transition
MachineMode to Halted"), the argument 1 clears it ("clear MachineMode to Normal, notify
the halt-control collaborator"). `cleared` says that the argument is 1. -/
def call_event_ON_HALT (env : Env σ) (cleared : Bool) (st : State σ) : State σ :=
  { st with halted := !cleared, ext := env.on_halt cleared st.ext }

/-- `THEKERNEL.call_event(ON_GCODE_RECEIVED, gcode)` (line 224). -/
def call_event_ON_GCODE_RECEIVED (env : Env σ) (gcode : Gcode) (st : State σ) :
    ExecResult σ × State σ :=
  let r := env.on_gcode_received gcode st.halted st.next_command_is_MCS st.ext
  (r, { st with
          halted := r.halted
          next_command_is_MCS := r.next_command_is_MCS
          ext := r.ext
          sent := st.sent ++ [⟨gcode, st.halted, st.next_command_is_MCS⟩] })

/-! ## `is_allowed_mcode` (lines 29-36) -/

/-- The table `allowed_mcodes` (line 30). -/
def allowed_mcodes : List Nat := [2, 5, 9, 30, 105, 114, 119, 80, 81, 911, 503, 106, 107]

/-- `is_allowed_mcode` (lines 31-36). -/
def is_allowed_mcode (m : Nat) : Bool := allowed_mcodes.any (fun a => a == m)

/-! ## One pass of the loop body (lines 154-263) -/

/-- Either go on with a value, or `return` from `on_console_line_received`. -/
inductive Step (σ : Type) (α : Type) where
  | cont (a : α)
  | ret (st : State σ)

/-- Lines 156-164: decode `single_command`; a leading `#` calls `set_variable_value`,
twice. -/
def decode (env : Env σ) (first_char : Char) (single_command : Str) (st : State σ) :
    Gcode × State σ :=
  let gcode := env.new_Gcode single_command false
  let gv := if first_char = '#' then env.set_variable_value gcode st.ext else (gcode, st.ext)
  let gv := if first_char = '#' then env.set_variable_value gv.1 gv.2 else gv
  (gv.1, { st with ext := gv.2 })

/-- Lines 166-183: the halt gate. -/
def halt_gate (env : Env σ) (gcode : Gcode) (st : State σ) : Step σ (State σ) :=
  if st.halted then
    if gcode.has_m && gcode.m == 999 then
      let st :=
        if st.halted then
          printf (call_event_ON_HALT env true st)
            "WARNING: After HALT you should HOME as position is currently unknown\n".toList
        else st
      .ret (printf st "ok\n".toList)
    else if !is_allowed_mcode gcode.m then
      .ret (printf st "error:Alarm lock\n".toList)
    else .cont st
  else .cont st

/-- Lines 185-220: the G53 resolver and the update of `modal_group_1`. The value is the
command to dispatch, the new `possible_command` and the new state. -/
def resolve_G53 (env : Env σ) (gcode : Gcode) (possible_command : Str) (st : State σ) :
    Step σ (Gcode × Str × State σ) :=
  if gcode.has_g then
    let r : Step σ (Gcode × Str × State σ) :=
      if gcode.g = 53 then
        if possible_command.isEmpty then
          if st.modal_group_1 > 3 then
            .ret (printf st "ok - Invalid G53\r\n".toList)
          else
            .cont ({ gcode with g := st.modal_group_1 }, possible_command,
                   { st with next_command_is_MCS := true })
        else
          let gcode := env.new_Gcode possible_command true
          if !gcode.has_g || gcode.g > 1 then
            .ret (printf st "ok - Invalid G53\r\n".toList)
          else
            .cont (gcode, [], { st with next_command_is_MCS := true })
      else .cont (gcode, possible_command, st)
    match r with
    | .ret st => .ret st
    | .cont (gcode, possible_command, st) =>
      if gcode.g < 4 then
        .cont (gcode, possible_command, { st with modal_group_1 := gcode.g })
      else .cont (gcode, possible_command, st)
  else .cont (gcode, possible_command, st)

/-- Lines 226-261: the replies written after the executor returned `r`. -/
def reply (env : Env σ) (r : ExecResult σ) (possible_command : Str) (st : State σ) :
    State σ :=
  if r.is_error then
    let st := printf st "error:".toList
    let st :=
      if !r.txt_after_ok.isEmpty then printf st (r.txt_after_ok ++ "\r\n".toList)
      else printf st "unknown\r\n".toList
    let st := printf st "Entering Alarm/Halt state\n".toList
    call_event_ON_HALT env false st
  else
    let st := if r.add_nl then printf st "\r\n".toList else st
    if !r.txt_after_ok.isEmpty then
      printf st ("ok ".toList ++ r.txt_after_ok ++ "\r\n".toList)
    else if env.is_ok_per_line then
      if possible_command.isEmpty then printf st "ok\r\n".toList else st
    else printf st "ok\r\n".toList

/-- Lines 224-263: hand the command to the executor and write the replies. -/
def dispatch (env : Env σ) (gcode : Gcode) (possible_command : Str) (st : State σ) :
    State σ :=
  let rs := call_event_ON_GCODE_RECEIVED env gcode st
  reply env rs.1 possible_command rs.2

/-- Lines 122-263: one pass of the `while` loop on a non-empty `possible_command`. The
value is the new `possible_command`, the new `cmd_pos` and the new state. -/
def loop_body (env : Env σ) (possible_command : Str) (cmd_pos : Option Nat)
    (st : State σ) : Step σ (Str × Option Nat × State σ) :=
  let first_char := first_char_of possible_command
  let cmd_pos := next_cmd_pos possible_command cmd_pos
  let sr := cut possible_command cmd_pos
  let gs := decode env first_char sr.1 st
  match halt_gate env gs.1 gs.2 with
  | .ret st => .ret st
  | .cont st =>
    match resolve_G53 env gs.1 sr.2 st with
    | .ret st => .ret st
    | .cont (gcode, possible_command, st) =>
      .cont (possible_command, cmd_pos, dispatch env gcode possible_command st)

/-- Lines 116-264: the `while (possible_command.size() > 0)` loop. `fuel` bounds the
number of passes; `none` means the bound was reached. -/
def loop (env : Env σ) : Nat → Str → Option Nat → State σ → Option (State σ)
  | 0, _, _, _ => none
  | fuel + 1, possible_command, cmd_pos, st =>
    if possible_command.length > 0 then
      match loop_body env possible_command cmd_pos st with
      | .ret st => some st
      | .cont (possible_command, cmd_pos, st) => loop env fuel possible_command cmd_pos st
    else some st

/-! ## The Line Normalizer (lines 78-114) and the dispatch pass (lines 64-286) -/

/-- The C function `isspace` in the C locale. -/
def isspace (c : Char) : Bool :=
  c = ' ' || c = '\t' || c = '\n' || c = Char.ofNat 11 || c = Char.ofNat 12 || c = '\r'

/-- The C function `islower` in the C locale. -/
def islower (c : Char) : Bool := 'a'.toNat ≤ c.toNat && c.toNat ≤ 'z'.toNat

/-- Modelled from the spec: `ltrim` of `utils.h`, which is not among the sources
("Leading whitespace is removed before any classification"). -/
def ltrim (s : Str) : Str := s.dropWhile isspace

/-- Lines 81-90: strip the line number of a line that starts with `N`. -/
def strip_line_number (possible_command : Str) : Str :=
  match find_first_not_of possible_command "N0123456789.,- ".toList with
  | some lnsize => substr_from possible_command lnsize
  | none => []

/-- Lines 92-108: move `G90`, or else `G91`, to the front of the line. -/
def promote_G90_G91 (possible_command : Str) : Str :=
  let modified_command := possible_command
  let g90_pos := find modified_command "G90".toList
  let g91_pos := find modified_command "G91".toList
  match g90_pos with
  | some p => "G90".toList ++ erase modified_command p 3
  | none =>
    match g91_pos with
    | some p => "G91".toList ++ erase modified_command p 3
    | none => possible_command

/-- Lines 110-114: cut the line at the first `;` or `(`. -/
def remove_comments (possible_command : Str) : Str :=
  match find_first_of possible_command ";(".toList 0 with
  | some comment => substr_to possible_command comment
  | none => possible_command

/-- Lines 80-114: the line handed to the splitting loop, for a line whose first character
`first_char` is one of G, M, T, S, N, #. -/
def normalize (first_char : Char) (possible_command : Str) : Str :=
  let possible_command :=
    if first_char = 'N' then strip_line_number possible_command else possible_command
  let possible_command :=
    if first_char = 'G' then promote_G90_G91 possible_command else possible_command
  remove_comments possible_command

/-- The call `snprintf(buf, sizeof(buf), "G%d ", modal_group_1)` with `char buf[6]`
(lines 271, 277): at most five characters are stored. -/
def snprintf_G (modal_group_1 : Nat) : Str :=
  (('G' :: Nat.toDigits 10 modal_group_1) ++ [' ']).take 5

/-- Lines 64-286: the code from the label `try_again` to the end of the function. `fuel`
bounds the passes of the splitting loop and the jumps back to the label; `none` means the
bound was reached. -/
def try_again (env : Env σ) : Nat → Str → State σ → Option (State σ)
  | 0, _, _ => none
  | fuel + 1, possible_command, st =>
    let first_char := first_char_of possible_command
    if first_char = '$' then some st
    else if islower first_char then some st
    else if first_char = 'G' ∨ first_char = 'M' ∨ first_char = 'T' ∨ first_char = 'S'
        ∨ first_char = 'N' ∨ first_char = '#' then
      loop env fuel (normalize first_char possible_command) none st
    else if first_char = ';' ∨ first_char = '(' ∨ first_char = '\n' ∨ first_char = '\r' then
      some (printf st "ok\n".toList)
    else
      let n := find_first_of possible_command "XYZAF".toList 0
      if n = some 0 ∨ (first_char = ' ' ∧ n ≠ none) then
        let buf :=
          if possible_command.getD (n.getD 0) (Char.ofNat 0) = 'F' then "G1 ".toList
          else snprintf_G st.modal_group_1
        try_again env fuel (buf ++ possible_command) st
      else
        some (printf st ("ok - ignore: [".toList ++ possible_command ++ "]\n".toList))

/-- `GcodeDispatch::on_console_line_received` (lines 50-287) on the message `message`. -/
def on_console_line_received (env : Env σ) (fuel : Nat) (message : Str) (st : State σ) :
    Option (State σ) :=
  let possible_command := message
  if possible_command.isEmpty then some (printf st "ok\r\n".toList)
  else try_again env fuel (ltrim possible_command) st

/-! ## A decoder and executors for concrete runs -/

/-- The digits at the front of `s` as a number, with the rest of `s`; `acc` is the value
read so far. -/
def read_digits : Str → Nat → Nat × Str
  | [], acc => (acc, [])
  | c :: cs, acc =>
    if c.isDigit then read_digits cs (10 * acc + (c.toNat - '0'.toNat)) else (acc, c :: cs)

/-- The number at the front of `s` as `strtol(s, &end, 10)` converted to `unsigned int`
reads it (blanks, a sign, digits; 32-bit `long`), `none` when no digit is there. -/
def strtol (s : Str) : Option Nat :=
  let s := s.dropWhile isspace
  let neg := s.head? = some '-'
  let s := if s.head? = some '-' ∨ s.head? = some '+' then s.tail else s
  if (s.headD ' ').isDigit then
    let v := (read_digits s 0).1
    if neg then some ((2 ^ 32 - min v (2 ^ 31)) % 2 ^ 32) else some (min v (2 ^ 31 - 1))
  else none

/-- The integer after the first `letter` that is followed by a number, 0 when there is
none. -/
def get_int (letter : Char) : Str → Nat
  | [] => 0
  | c :: cs =>
    if c = letter then
      match strtol cs with
      | some v => v
      | none => get_int letter cs
    else get_int letter cs

/-- Modelled from the spec: the `Gcode` constructor of `utils/Gcode.cpp`, which is not
among the sources ("a flag indicating presence of a G-code, a flag indicating presence
of an M-code", "leading letter and number give the primary code", "malformed numeric
content is tolerated by the parser"). A command has a G-code (an M-code) when the letter
occurs in it; the code is the number after the letter, 0 when there is none. With
`strip` the text kept is the same; only the codes matter here. -/
def parse_Gcode (command : Str) (_strip : Bool) : Gcode :=
  { command := command
    has_g := command.contains 'G'
    g := if command.contains 'G' then get_int 'G' command else 0
    has_m := command.contains 'M'
    m := if command.contains 'M' then get_int 'M' command else 0 }

/-- An executor result with no error, no text and no newline flag that leaves the rest
of the firmware as it is, except that the robot has consumed `next_command_is_MCS`. -/
def exec_ok (halted : Bool) (ext : σ) : ExecResult σ :=
  { is_error := false, txt_after_ok := [], add_nl := false, halted := halted,
    next_command_is_MCS := false, ext := ext }

/-- An executor result that reports an error with the text `txt`. -/
def exec_error (txt : Str) (halted : Bool) (ext : σ) : ExecResult σ :=
  { is_error := true, txt_after_ok := txt, add_nl := false, halted := halted,
    next_command_is_MCS := false, ext := ext }

/-- The modelled decoder with an executor that accepts every command. -/
def env_ok (ok_per_line : Bool) : Env Unit :=
  { new_Gcode := parse_Gcode
    set_variable_value := fun g e => (g, e)
    on_gcode_received := fun _ halted _ ext => exec_ok halted ext
    on_halt := fun _ e => e
    is_ok_per_line := ok_per_line }

/-- The modelled decoder with an executor that rejects exactly the commands whose G-code
is 1, with the text `txt`. -/
def env_fail_G1 (txt : Str) (ok_per_line : Bool) : Env Unit :=
  { new_Gcode := parse_Gcode
    set_variable_value := fun g e => (g, e)
    on_gcode_received := fun gc halted _ ext =>
      if gc.has_g && gc.g == 1 then exec_error txt halted ext else exec_ok halted ext
    on_halt := fun _ e => e
    is_ok_per_line := ok_per_line }

/-- The modelled decoder with an executor that accepts every command, with no text and
no newline flag, while the machine goes to Halted during the call (a halt raised from
outside the dispatcher). -/
def env_ok_halting (ok_per_line : Bool) : Env Unit :=
  { new_Gcode := parse_Gcode
    set_variable_value := fun g e => (g, e)
    on_gcode_received := fun _ _ _ ext => exec_ok true ext
    on_halt := fun _ e => e
    is_ok_per_line := ok_per_line }

/-- A state with the given `modal_group_1` and halt flag and empty logs. -/
def state0 (modal_group_1 : Nat) (halted : Bool) : State Unit :=
  { modal_group_1 := modal_group_1, halted := halted, next_command_is_MCS := false,
    ext := (), out := [], sent := [] }

/-! ## Vocabulary of the statements -/

/-- The character at index `p` of `s` is one of `chars`. -/
def holds_one_of (s : Str) (chars : Str) (p : Nat) : Prop :=
  ∃ c ∈ chars, s[p]? = some c

instance (s chars : Str) (p : Nat) : Decidable (holds_one_of s chars p) :=
  inferInstanceAs (Decidable (∃ c ∈ chars, s[p]? = some c))

/-- The index `p` is the smallest index `>= start` of `s` that holds one of `chars`. -/
def smallest_index_from (s : Str) (chars : Str) (start p : Nat) : Prop :=
  start ≤ p ∧ holds_one_of s chars p ∧ ∀ q, q < p → start ≤ q → ¬ holds_one_of s chars q

instance (s chars : Str) (start p : Nat) : Decidable (smallest_index_from s chars start p) :=
  inferInstanceAs (Decidable (start ≤ p ∧ holds_one_of s chars p ∧
    ∀ q, q < p → start ≤ q → ¬ holds_one_of s chars q))

/-- No index `>= start` of `s` holds one of `chars`. -/
def no_index_from (s : Str) (chars : Str) (start : Nat) : Prop :=
  ∀ q, q < s.length → start ≤ q → ¬ holds_one_of s chars q

instance (s chars : Str) (start : Nat) : Decidable (no_index_from s chars start) :=
  inferInstanceAs (Decidable (∀ q, q < s.length → start ≤ q → ¬ holds_one_of s chars q))

/-- The line has the character `c` at some index `>= 2`. -/
def has_from_2 (s : Str) (c : Char) : Prop := ∃ i, 2 ≤ i ∧ s[i]? = some c

/-- The loop is entered with `cmd_pos = npos`, and every later pass starts at a boundary,
which holds one of G, M, S, T. -/
def loop_entry (possible_command : Str) (cmd_pos : Option Nat) : Prop :=
  cmd_pos = none ∨ first_char_of possible_command ∈ "GMST".toList

/-- The `single_command` of a pass of the loop (lines 146-152). -/
def pass_command (possible_command : Str) (cmd_pos : Option Nat) : Str :=
  (cut possible_command (next_cmd_pos possible_command cmd_pos)).1

/-- The `possible_command` left by the split of a pass of the loop (lines 146-152). -/
def pass_rest (possible_command : Str) (cmd_pos : Option Nat) : Str :=
  (cut possible_command (next_cmd_pos possible_command cmd_pos)).2

/-- The `Gcode` object that a pass of the loop decodes (lines 156-164). -/
def pass_gcode (env : Env σ) (possible_command : Str) (cmd_pos : Option Nat)
    (st : State σ) : Gcode :=
  (decode env (first_char_of possible_command) (pass_command possible_command cmd_pos) st).1

/-- The state after the decoding of a pass of the loop (lines 156-164). -/
def pass_state (env : Env σ) (possible_command : Str) (cmd_pos : Option Nat)
    (st : State σ) : State σ :=
  (decode env (first_char_of possible_command) (pass_command possible_command cmd_pos) st).2

/-- What the executor answers to `gcode` in the state `st`. -/
def outcome (env : Env σ) (gcode : Gcode) (st : State σ) : ExecResult σ :=
  env.on_gcode_received gcode st.halted st.next_command_is_MCS st.ext

/-- What the halt gate guarantees of a command handed to the executor while Halted: an
allow-listed M-code, unless the command is the one the G53 resolver builds from a
non-empty rest of the line (line 203). -/
def gated (env : Env σ) (e : Sent) : Prop :=
  e.halted = true →
    is_allowed_mcode e.gcode.m = true
    ∨ (e.mcs = true ∧ ∃ rest : Str, rest ≠ [] ∧ e.gcode = env.new_Gcode rest true)

/-- The text `pat` occurs in `s` at index `p`. -/
def occurs_at (s pat : Str) (p : Nat) : Prop := pat.isPrefixOf (s.drop p) = true

instance (s pat : Str) (p : Nat) : Decidable (occurs_at s pat p) :=
  inferInstanceAs (Decidable (pat.isPrefixOf (s.drop p) = true))

/-- The index `p` is where `pat` first occurs in `s`. -/
def first_occurrence (s pat : Str) (p : Nat) : Prop :=
  occurs_at s pat p ∧ ∀ q, q < p → ¬ occurs_at s pat q

instance (s pat : Str) (p : Nat) : Decidable (first_occurrence s pat p) :=
  inferInstanceAs (Decidable (occurs_at s pat p ∧ ∀ q, q < p → ¬ occurs_at s pat q))

/-- The text `pat` occurs somewhere in `s`. -/
def contains_token (s pat : Str) : Prop := ∃ p, occurs_at s pat p

/-- The states the dispatcher can be in: after `init`, and after each line received
(whatever the rest of the firmware did to the halt flag, the MCS flag and its own state
in between). -/
inductive Reachable (env : Env σ) : State σ → Prop where
  | init (st : State σ) : Reachable env (init st)
  | line (st st' : State σ) (fuel : Nat) (message : Str) :
      Reachable env st → on_console_line_received env fuel message st = some st' →
      Reachable env st'
  | outside (st : State σ) (halted mcs : Bool) (ext : σ) :
      Reachable env st →
      Reachable env { st with halted := halted, next_command_is_MCS := mcs, ext := ext }

/-- The `Gcode` objects a pass of the loop can decode from the command text `cmd`
(lines 156-164): the one the constructor builds or, on a line that starts with `#`, what
two calls of `set_variable_value` make of it. -/
def decodings (env : Env σ) (cmd : Str) (gc : Gcode) : Prop :=
  gc = env.new_Gcode cmd false
  ∨ ∃ e1 e2 : σ, gc = (env.set_variable_value
      (env.set_variable_value (env.new_Gcode cmd false) e1).1 e2).1

/-- The premises of the one-ok-per-line rule, checked along the run of the loop: at every
pass the machine is in Normal mode when the command is decoded, the command does not
decode to G53, and the executor, called in the state that pass has reached, reports no
error, no trailing text and no newline flag. -/
def runs_accepted (env : Env σ) : Nat → Str → Option Nat → State σ → Bool
  | 0, _, _, _ => true
  | fuel + 1, possible_command, cmd_pos, st =>
    if possible_command.length > 0 then
      !st.halted
      && !((pass_gcode env possible_command cmd_pos st).has_g
            && (pass_gcode env possible_command cmd_pos st).g == 53)
      && (match resolve_G53 env (pass_gcode env possible_command cmd_pos st)
            (pass_rest possible_command cmd_pos)
            (pass_state env possible_command cmd_pos st) with
          | .ret _ => false
          | .cont (gcode, rest, st2) =>
            !(outcome env gcode st2).is_error
            && (outcome env gcode st2).txt_after_ok.isEmpty
            && !(outcome env gcode st2).add_nl
            && runs_accepted env fuel rest (next_cmd_pos possible_command cmd_pos)
                (dispatch env gcode rest st2))
    else true

/-- The Line Normalizer as a function of the raw line and of `modal_group_1`: the string
that `on_console_line_received` hands to the splitting loop (line 116), `none` when the
call returns without reaching the loop. A line that starts, after `ltrim`, with G, M, T,
S, N or `#` goes through lines 80-114; a line that starts with X, Y, Z, A or F first gets
the `G` word of lines 269-280 in front and then goes through lines 80-114 with the first
character `G`; every other line returns before the loop. -/
def line_normalizer (modal_group_1 : Nat) (message : Str) : Option Str :=
  if message.isEmpty then none
  else
    let possible_command := ltrim message
    let first_char := first_char_of possible_command
    if first_char = '$' then none
    else if islower first_char then none
    else if first_char = 'G' ∨ first_char = 'M' ∨ first_char = 'T' ∨ first_char = 'S'
        ∨ first_char = 'N' ∨ first_char = '#' then
      some (normalize first_char possible_command)
    else if first_char = ';' ∨ first_char = '(' ∨ first_char = '\n' ∨ first_char = '\r' then
      none
    else
      let n := find_first_of possible_command "XYZAF".toList 0
      if n = some 0 ∨ (first_char = ' ' ∧ n ≠ none) then
        let buf :=
          if possible_command.getD (n.getD 0) (Char.ofNat 0) = 'F' then "G1 ".toList
          else snprintf_G modal_group_1
        some (normalize 'G' (buf ++ possible_command))
      else none

/-! ## Facts about the string searches -/

theorem findFrom_some {p : Char → Bool} {s : Str} {i k : Nat} (h : findFrom p s i = some k) :
    i ≤ k ∧ (∃ c, s[k - i]? = some c ∧ p c = true) ∧
      ∀ j, j < k - i → ∀ d, s[j]? = some d → p d = false := by
  induction s generalizing i with
  | nil => simp [findFrom] at h
  | cons c cs ih =>
    unfold findFrom at h
    by_cases hc : p c = true
    · simp only [hc, if_true, Option.some.injEq] at h
      subst h
      simp [hc]
    · simp only [hc] at h
      have hc' : p c = false := by simpa using hc
      obtain ⟨h1, ⟨c', h2, h3⟩, h4⟩ := ih h
      have hk : k - i = (k - (i + 1)) + 1 := by omega
      refine ⟨by omega, ⟨c', ?_, h3⟩, ?_⟩
      · rw [hk]; simpa using h2
      · intro j hj d hd
        cases j with
        | zero => simp at hd; subst hd; exact hc'
        | succ j => exact h4 j (by omega) d (by simpa using hd)

theorem findFrom_none {p : Char → Bool} {s : Str} {i : Nat} :
    findFrom p s i = none ↔ ∀ c ∈ s, p c = false := by
  induction s generalizing i with
  | nil => simp [findFrom]
  | cons c cs ih =>
    unfold findFrom
    by_cases hc : p c = true
    · simp [hc]
    · have hc' : p c = false := by simpa using hc
      simp [hc', ih]

theorem findFrom_first {p : Char → Bool} {s : Str} {i n : Nat}
    (h1 : ∃ c, s[n]? = some c ∧ p c = true)
    (h2 : ∀ j, j < n → ∀ d, s[j]? = some d → p d = false) :
    findFrom p s i = some (i + n) := by
  induction s generalizing i n with
  | nil => simp at h1
  | cons c cs ih =>
    unfold findFrom
    cases n with
    | zero =>
      obtain ⟨c', hc', hp⟩ := h1
      simp at hc'; subst hc'; simp [hp]
    | succ n =>
      have hc : p c = false := h2 0 (by omega) c (by simp)
      simp only [hc]
      have := ih (i := i + 1) (n := n) (by simpa using h1)
        (fun j hj d hd => h2 (j + 1) (by omega) d (by simpa using hd))
      simpa [Nat.add_assoc, Nat.add_comm 1 n] using this

theorem find_first_of_some_iff {s chars : Str} {pos k : Nat} :
    find_first_of s chars pos = some k ↔ smallest_index_from s chars pos k := by
  unfold find_first_of smallest_index_from holds_one_of
  constructor
  · intro h
    obtain ⟨h1, ⟨c, h2, h3⟩, h4⟩ := findFrom_some h
    refine ⟨h1, ⟨c, by simpa using h3, ?_⟩, ?_⟩
    · rw [List.getElem?_drop] at h2
      rwa [show pos + (k - pos) = k by omega] at h2
    · rintro q hq hpq ⟨d, hd, hqd⟩
      have := h4 (q - pos) (by omega) d (by
        rw [List.getElem?_drop, show pos + (q - pos) = q by omega]; exact hqd)
      simp at this
      exact this hd
  · rintro ⟨h1, ⟨c, hc, hk⟩, h3⟩
    have := findFrom_first (p := fun c => chars.contains c) (s := s.drop pos) (i := pos)
      (n := k - pos)
      ⟨c, by rw [List.getElem?_drop, show pos + (k - pos) = k by omega]; exact hk,
        by simpa using hc⟩
      (by
        intro j hj d hd
        rw [List.getElem?_drop] at hd
        by_contra hcon
        have hmem : d ∈ chars := by simpa using hcon
        exact h3 (pos + j) (by omega) (by omega) ⟨d, hmem, hd⟩)
    rw [this]; congr 1; omega

theorem find_first_of_none_iff {s chars : Str} {pos : Nat} :
    find_first_of s chars pos = none ↔ no_index_from s chars pos := by
  unfold find_first_of no_index_from holds_one_of
  rw [findFrom_none]
  constructor
  · rintro h q hq hpq ⟨d, hd, hqd⟩
    have hmem : d ∈ s.drop pos := by
      rw [List.mem_iff_getElem?]
      exact ⟨q - pos, by rw [List.getElem?_drop, show pos + (q - pos) = q by omega]; exact hqd⟩
    have := h d hmem
    simp at this
    exact this hd
  · intro h c hc
    rw [List.mem_iff_getElem?] at hc
    obtain ⟨n, hn⟩ := hc
    rw [List.getElem?_drop] at hn
    by_contra hcon
    have hmem : c ∈ chars := by simpa using hcon
    have hlt : pos + n < s.length := by
      by_contra hge
      rw [List.getElem?_eq_none (by omega)] at hn
      exact absurd hn (by simp)
    exact h (pos + n) hlt (by omega) ⟨c, hmem, hn⟩

theorem holds_one_of_lt {s chars : Str} {p : Nat} (h : holds_one_of s chars p) :
    p < s.length := by
  obtain ⟨c, -, hc⟩ := h
  by_contra hge
  rw [List.getElem?_eq_none (by omega)] at hc
  exact absurd hc (by simp)

theorem holds_one_of_mono {s chars chars2 : Str} {p : Nat} (hsub : ∀ c ∈ chars, c ∈ chars2)
    (h : holds_one_of s chars p) : holds_one_of s chars2 p := by
  obtain ⟨c, hc, hp⟩ := h
  exact ⟨c, hsub c hc, hp⟩

theorem first_char_of_drop {s chars : Str} {p : Nat} (h : holds_one_of s chars p) :
    first_char_of (s.drop p) ∈ chars := by
  obtain ⟨c, hc, hp⟩ := h
  unfold first_char_of
  rw [List.headD_eq_head?_getD, List.head?_drop, hp]
  exact hc

theorem next_cmd_pos_some {pc : Str} {cp : Option Nat} {p : Nat} (hin : loop_entry pc cp)
    (h : next_cmd_pos pc cp = some p) : 2 ≤ p ∧ holds_one_of pc "GMST".toList p := by
  unfold next_cmd_pos at h
  simp only at h
  split_ifs at h with h1 h2 h3 h4
  · rw [find_first_of_some_iff] at h
    exact ⟨h.1, h.2.1⟩
  · rw [find_first_of_some_iff] at h
    exact ⟨h.1, holds_one_of_mono (by decide) h.2.1⟩
  · rw [find_first_of_some_iff] at h
    exact ⟨h.1, holds_one_of_mono (by decide) h.2.1⟩
  · split at h
    · rw [find_first_of_some_iff] at h
      exact ⟨h.1, holds_one_of_mono (by decide) h.2.1⟩
    · rw [find_first_of_some_iff] at h
      exact ⟨by have := h.1; omega, h.2.1⟩
  · rcases hin with hn | hm
    · rw [hn] at h; exact absurd h (by simp)
    · exfalso
      simp only [String.toList, List.mem_cons, List.mem_singleton] at hm
      simp at hm
      rcases hm with hm | hm | hm | hm
      · exact h1 hm
      · exact h3 hm
      · exact h4 (Or.inr hm)
      · exact h4 (Or.inl hm)

theorem split_loop_covers (fuel : Nat) (pc : Str) (cp : Option Nat)
    (hin : loop_entry pc cp) (hfuel : pc.length < fuel) :
    ∃ cmds, split_loop fuel pc cp = some cmds ∧ cmds.flatten = pc ∧ ∀ c ∈ cmds, c ≠ [] := by
  induction fuel generalizing pc cp with
  | zero => omega
  | succ fuel ih =>
    unfold split_loop
    by_cases hlen : pc.length > 0
    · simp only [hlen, if_true]
      cases hnext : next_cmd_pos pc cp with
      | none =>
        have hf : fuel = (fuel - 1) + 1 := by omega
        rw [hf]
        refine ⟨[pc], by simp [cut, split_loop], by simp, ?_⟩
        intro c hc
        simp at hc; subst hc
        intro h0; simp [h0] at hlen
      | some p =>
        obtain ⟨hp2, hp⟩ := next_cmd_pos_some hin hnext
        have hplt := holds_one_of_lt hp
        obtain ⟨cmds, h1, h2, h3⟩ := ih (pc.drop p) (some p)
          (Or.inr (first_char_of_drop hp)) (by rw [List.length_drop]; omega)
        refine ⟨pc.take p :: cmds, by simp [cut, substr_to, substr_from, h1], ?_, ?_⟩
        · simp [h2]
        · intro c hc
          rcases List.mem_cons.1 hc with hc | hc
          · subst hc
            intro h0
            have := congrArg List.length h0
            rw [List.length_take, List.length_nil] at this
            omega
          · exact h3 c hc
    · refine ⟨[], by simp [hlen], ?_, by simp⟩
      have : pc = [] := by
        cases pc with
        | nil => rfl
        | cons a as => simp at hlen
      simp [this]

theorem split_loop_step_some {fuel : Nat} {pc : Str} {cp : Option Nat} {p : Nat}
    (hlen : pc.length > 0) (hnext : next_cmd_pos pc cp = some p) (hin : loop_entry pc cp)
    (hfuel : pc.length < fuel + 1) :
    ∃ rest, split_loop (fuel + 1) pc cp = some (pc.take p :: rest)
      ∧ rest.flatten = pc.drop p := by
  obtain ⟨hp2, hp⟩ := next_cmd_pos_some hin hnext
  have hplt := holds_one_of_lt hp
  obtain ⟨cmds, h1, h2, -⟩ := split_loop_covers fuel (pc.drop p) (some p)
    (Or.inr (first_char_of_drop hp)) (by rw [List.length_drop]; omega)
  refine ⟨cmds, ?_, h2⟩
  unfold split_loop
  simp [hlen, hnext, cut, substr_to, substr_from, h1]

theorem split_loop_step_none {fuel : Nat} {pc : Str} {cp : Option Nat}
    (hlen : pc.length > 0) (hnext : next_cmd_pos pc cp = none) (hfuel : 2 ≤ fuel) :
    split_loop fuel pc cp = some [pc] := by
  obtain ⟨f, rfl⟩ : ∃ f, fuel = f + 2 := ⟨fuel - 2, by omega⟩
  simp [split_loop, hlen, hnext, cut]

theorem isSome_find_first_of_iff {s : Str} {c : Char} {pos : Nat} :
    (find_first_of s [c] pos).isSome = true ↔ ∃ i, pos ≤ i ∧ s[i]? = some c := by
  constructor
  · intro h
    obtain ⟨k, hk⟩ := Option.isSome_iff_exists.1 h
    rw [find_first_of_some_iff] at hk
    obtain ⟨h1, ⟨d, hd, hk2⟩, -⟩ := hk
    simp at hd; subst hd
    exact ⟨k, h1, hk2⟩
  · rintro ⟨i, hi, hc⟩
    by_contra hn
    have hnone : find_first_of s [c] pos = none := by
      cases h : find_first_of s [c] pos with
      | none => rfl
      | some k => simp [h] at hn
    rw [find_first_of_none_iff] at hnone
    have hlt : i < s.length := by
      by_contra hge
      rw [List.getElem?_eq_none (by omega)] at hc
      exact absurd hc (by simp)
    exact hnone i hlt hi ⟨c, by simp, hc⟩

theorem next_cmd_pos_G {s : Str} (hG : s.head? = some 'G') (cp : Option Nat) :
    (has_from_2 s 'S' ∧ has_from_2 s 'M' →
        next_cmd_pos s cp = find_first_of s "GMST".toList 2)
    ∧ (¬ (has_from_2 s 'S' ∧ has_from_2 s 'M') →
        next_cmd_pos s cp = find_first_of s "GMT".toList 2) := by
  have hfc : first_char_of s = 'G' := by
    unfold first_char_of; rw [List.headD_eq_head?_getD, hG]; rfl
  have hS : (find_first_of s "S".toList 2).isSome = true ↔ has_from_2 s 'S' :=
    isSome_find_first_of_iff
  have hM : (find_first_of s "M".toList 2).isSome = true ↔ has_from_2 s 'M' :=
    isSome_find_first_of_iff
  constructor
  · rintro ⟨h1, h2⟩
    unfold next_cmd_pos
    simp only [hfc, if_true, hS.2 h1, hM.2 h2, Bool.and_self]
  · intro h
    unfold next_cmd_pos
    simp only [hfc, if_true]
    have : ((find_first_of s "S".toList 2).isSome
        && (find_first_of s "M".toList 2).isSome) = false := by
      by_contra hcon
      simp only [Bool.not_eq_false, Bool.and_eq_true] at hcon
      exact h ⟨hS.1 hcon.1, hM.1 hcon.2⟩
    rw [this]; simp

/-- C1. Command Splitter, G rule: for a line `s` that starts with `G` the first command
the splitting loop yields is the prefix of `s` that ends just before `p`, where `p` is the
smallest index `>= 2` holding one of G, M, S, T when `s` has both an `S` and an `M` at an
index `>= 2`, and the smallest index `>= 2` holding one of G, M, T otherwise (the commands
after it make up the rest of the line); when there is no such index the whole line is the
only command. `G1X10M104S200` is split into `G1X10` and `M104S200`. -/
theorem C1_split_G_rule (s : Str) (fuel : Nat) (hG : s.head? = some 'G')
    (hfuel : s.length < fuel) :
    (has_from_2 s 'S' ∧ has_from_2 s 'M' →
      (∀ p, smallest_index_from s "GMST".toList 2 p →
        ∃ rest, split_commands fuel s = some (s.take p :: rest) ∧ rest.flatten = s.drop p)
      ∧ (no_index_from s "GMST".toList 2 → split_commands fuel s = some [s]))
    ∧ (¬ (has_from_2 s 'S' ∧ has_from_2 s 'M') →
      (∀ p, smallest_index_from s "GMT".toList 2 p →
        ∃ rest, split_commands fuel s = some (s.take p :: rest) ∧ rest.flatten = s.drop p)
      ∧ (no_index_from s "GMT".toList 2 → split_commands fuel s = some [s]))
    ∧ split_commands 20 "G1X10M104S200".toList
        = some ["G1X10".toList, "M104S200".toList] := by
  have hlen : s.length > 0 := by
    cases s with
    | nil => simp at hG
    | cons a as => simp
  obtain ⟨f, rfl⟩ : ∃ f, fuel = f + 1 := ⟨fuel - 1, by omega⟩
  obtain ⟨hboth, hnot⟩ := next_cmd_pos_G hG none
  refine ⟨fun h => ⟨fun p hp => ?_, fun hno => ?_⟩, fun h => ⟨fun p hp => ?_, fun hno => ?_⟩,
    by decide⟩
  · exact split_loop_step_some hlen
      (by rw [hboth h]; exact find_first_of_some_iff.2 hp) (Or.inl rfl) hfuel
  · exact split_loop_step_none hlen
      (by rw [hboth h]; exact find_first_of_none_iff.2 hno) (by omega)
  · exact split_loop_step_some hlen
      (by rw [hnot h]; exact find_first_of_some_iff.2 hp) (Or.inl rfl) hfuel
  · exact split_loop_step_none hlen
      (by rw [hnot h]; exact find_first_of_none_iff.2 hno) (by omega)

/-- C2. Command Splitter coverage: the splitting loop, run on any line with more passes
allowed than the line has characters, ends and yields commands that are all non-empty
and whose concatenation, in order, is the line. -/
theorem C2_split_covers_line (s : Str) (fuel : Nat) (hfuel : s.length < fuel) :
    ∃ cmds, split_commands fuel s = some cmds ∧ cmds.flatten = s ∧ ∀ c ∈ cmds, c ≠ [] :=
  split_loop_covers fuel s none (Or.inl rfl) hfuel

/-- Witness of C1 on `G1X10M104S200`: an `S` at index 9 and an `M` at index 5, so the
first command ends before index 5. -/
theorem C1_split_G_rule_witness :
    ∃ rest, split_commands 20 "G1X10M104S200".toList
        = some ("G1X10M104S200".toList.take 5 :: rest)
      ∧ rest.flatten = "G1X10M104S200".toList.drop 5 :=
  ((C1_split_G_rule "G1X10M104S200".toList 20 (by decide) (by decide)).1
    ⟨⟨9, by decide⟩, ⟨5, by decide⟩⟩).1 5 (by decide)

/-- Witness of C2 on `G1X10M104S200`. -/
theorem C2_split_covers_line_witness :
    ∃ cmds, split_commands 20 "G1X10M104S200".toList = some cmds
      ∧ cmds.flatten = "G1X10M104S200".toList ∧ ∀ c ∈ cmds, c ≠ [] :=
  C2_split_covers_line "G1X10M104S200".toList 20 (by decide)

/-! ## One pass of the loop -/

theorem loop_body_eq (env : Env σ) (pc : Str) (cp : Option Nat) (st : State σ) :
    loop_body env pc cp st =
      match halt_gate env (pass_gcode env pc cp st) (pass_state env pc cp st) with
      | .ret st1 => .ret st1
      | .cont st1 =>
        match resolve_G53 env (pass_gcode env pc cp st) (pass_rest pc cp) st1 with
        | .ret st2 => .ret st2
        | .cont (gcode, possible_command, st2) =>
          .cont (possible_command, next_cmd_pos pc cp,
            dispatch env gcode possible_command st2) := rfl

theorem loop_succ (env : Env σ) (fuel : Nat) (pc : Str) (cp : Option Nat) (st : State σ)
    (hpc : pc ≠ []) :
    loop env (fuel + 1) pc cp st =
      match loop_body env pc cp st with
      | .ret st => some st
      | .cont (possible_command, cmd_pos, st) => loop env fuel possible_command cmd_pos st := by
  have hlen : pc.length > 0 := List.length_pos.2 hpc
  simp only [loop, hlen, if_true]

theorem loop_nil (env : Env σ) (fuel : Nat) (cp : Option Nat) (st : State σ) :
    loop env (fuel + 1) [] cp st = some st := by
  simp [loop]

theorem halt_gate_normal (env : Env σ) (gcode : Gcode) (st : State σ)
    (h : st.halted = false) : halt_gate env gcode st = .cont st := by
  simp [halt_gate, h]

/-- C3. Halt Gate rejection: when a pass of the loop decodes, while the machine is
Halted, a command that is not M999 and whose M-code `is_allowed_mcode` rejects, the call
returns there: the one reply `error:Alarm lock\n` is written, nothing is handed to the
executor, and `modal_group_1`, the halt flag and `next_command_is_MCS` are as before.
A command in which the decoder finds no M-code has the M-code 0, which is rejected.
`M3` while Halted yields exactly `error:Alarm lock\n`. -/
theorem C3_halt_gate_rejects (env : Env σ) (pc : Str) (cp : Option Nat) (st : State σ)
    (fuel : Nat) (hpc : pc ≠ []) (hhalt : st.halted = true)
    (hreset : ¬ ((pass_gcode env pc cp st).has_m = true ∧ (pass_gcode env pc cp st).m = 999))
    (hnot : is_allowed_mcode (pass_gcode env pc cp st).m = false) :
    (∃ st', loop env (fuel + 1) pc cp st = some st'
      ∧ st'.out = st.out ++ ["error:Alarm lock\n".toList]
      ∧ st'.sent = st.sent
      ∧ st'.modal_group_1 = st.modal_group_1
      ∧ st'.halted = true
      ∧ st'.next_command_is_MCS = st.next_command_is_MCS)
    ∧ (∀ command strip, (parse_Gcode command strip).has_m = false →
        is_allowed_mcode (parse_Gcode command strip).m = false)
    ∧ (∀ mg b, ∃ st', on_console_line_received (env_ok b) 20 "M3".toList (state0 mg true)
          = some st'
        ∧ st'.out = ["error:Alarm lock\n".toList] ∧ st'.sent = []
        ∧ st'.modal_group_1 = mg ∧ st'.halted = true) := by
  refine ⟨?_, ?_, ?_⟩
  · refine ⟨printf (pass_state env pc cp st) "error:Alarm lock\n".toList, ?_, rfl, rfl, rfl,
      hhalt, rfl⟩
    rw [loop_succ env fuel pc cp st hpc, loop_body_eq]
    have h1 : (pass_state env pc cp st).halted = true := hhalt
    have h2 : ((pass_gcode env pc cp st).has_m && (pass_gcode env pc cp st).m == 999)
        = false := by
      by_contra hcon
      simp only [Bool.not_eq_false, Bool.and_eq_true, beq_iff_eq] at hcon
      exact hreset hcon
    simp [halt_gate, h1, h2, hnot]
  · intro command strip h
    have h' : command.contains 'M' = false := h
    show is_allowed_mcode (if command.contains 'M' = true then get_int 'M' command else 0)
      = false
    rw [h']
    simp only [Bool.false_eq_true, if_false]
    decide
  · intro mg b
    exact ⟨_, rfl, rfl, rfl, rfl, rfl⟩

/-- Witness of C3: `G1X5M3` received while Halted; the first command `G1X5` has no
M-code. -/
theorem C3_halt_gate_rejects_witness :
    ∃ st', loop (env_ok false) 1 "G1X5M3".toList none (state0 2 true) = some st'
      ∧ st'.out = (state0 2 true).out ++ ["error:Alarm lock\n".toList]
      ∧ st'.sent = (state0 2 true).sent
      ∧ st'.modal_group_1 = (state0 2 true).modal_group_1
      ∧ st'.halted = true
      ∧ st'.next_command_is_MCS = (state0 2 true).next_command_is_MCS :=
  (C3_halt_gate_rejects (env_ok false) "G1X5M3".toList none (state0 2 true) 0
    (by decide) rfl (by decide) (by decide)).1

theorem dispatch_sent (env : Env σ) (gcode : Gcode) (rest : Str) (st : State σ) :
    (dispatch env gcode rest st).sent
      = st.sent ++ [⟨gcode, st.halted, st.next_command_is_MCS⟩] := by
  simp only [dispatch, reply, call_event_ON_GCODE_RECEIVED, call_event_ON_HALT, printf]
  split_ifs <;> rfl

theorem dispatch_modal (env : Env σ) (gcode : Gcode) (rest : Str) (st : State σ) :
    (dispatch env gcode rest st).modal_group_1 = st.modal_group_1 := by
  simp only [dispatch, reply, call_event_ON_GCODE_RECEIVED, call_event_ON_HALT, printf]
  split_ifs <;> rfl

theorem dispatch_error_halted (env : Env σ) (gcode : Gcode) (rest : Str) (st : State σ)
    (herr : (outcome env gcode st).is_error = true) :
    (dispatch env gcode rest st).halted = true := by
  have herr' : (env.on_gcode_received gcode st.halted st.next_command_is_MCS st.ext).is_error
      = true := herr
  simp [dispatch, reply, call_event_ON_GCODE_RECEIVED, call_event_ON_HALT, printf, herr']

/-- C6. Executor failure reply and latch: when the executor reports an error for a
dispatched command, the writes made for it are `error:`, then the trailing text with
`\r\n` (or `unknown\r\n` when the text is empty), then `Entering Alarm/Halt state\n`, so
the reply stream gets `error:<text>\r\n` or `error:unknown\r\n` followed by
`Entering Alarm/Halt state\n` and no ok, and the machine is Halted afterwards. -/
theorem C6_executor_failure_reply (env : Env σ) (gcode : Gcode) (rest : Str)
    (st : State σ) (herr : (outcome env gcode st).is_error = true) :
    ((outcome env gcode st).txt_after_ok ≠ [] →
        (dispatch env gcode rest st).out = st.out ++
          ["error:".toList, (outcome env gcode st).txt_after_ok ++ "\r\n".toList,
           "Entering Alarm/Halt state\n".toList]
        ∧ (dispatch env gcode rest st).out.flatten = st.out.flatten ++
          ("error:".toList ++ (outcome env gcode st).txt_after_ok ++ "\r\n".toList
            ++ "Entering Alarm/Halt state\n".toList))
    ∧ ((outcome env gcode st).txt_after_ok = [] →
        (dispatch env gcode rest st).out = st.out ++
          ["error:".toList, "unknown\r\n".toList, "Entering Alarm/Halt state\n".toList]
        ∧ (dispatch env gcode rest st).out.flatten = st.out.flatten ++
          ("error:unknown\r\n".toList ++ "Entering Alarm/Halt state\n".toList))
    ∧ (dispatch env gcode rest st).halted = true := by
  have herr' : (env.on_gcode_received gcode st.halted st.next_command_is_MCS st.ext).is_error
      = true := herr
  refine ⟨fun htxt => ?_, fun htxt => ?_, ?_⟩
  · have htxt' : (env.on_gcode_received gcode st.halted st.next_command_is_MCS
        st.ext).txt_after_ok ≠ [] := htxt
    have hout : (dispatch env gcode rest st).out = st.out ++
          ["error:".toList, (outcome env gcode st).txt_after_ok ++ "\r\n".toList,
           "Entering Alarm/Halt state\n".toList] := by
      simp [dispatch, reply, call_event_ON_GCODE_RECEIVED, call_event_ON_HALT, printf,
        outcome, herr', htxt']
    refine ⟨hout, ?_⟩
    rw [hout]
    simp [List.append_assoc]
  · have htxt' : (env.on_gcode_received gcode st.halted st.next_command_is_MCS
        st.ext).txt_after_ok = [] := htxt
    have hout : (dispatch env gcode rest st).out = st.out ++
          ["error:".toList, "unknown\r\n".toList, "Entering Alarm/Halt state\n".toList] := by
      simp [dispatch, reply, call_event_ON_GCODE_RECEIVED, call_event_ON_HALT, printf,
        outcome, herr', htxt']
    refine ⟨hout, ?_⟩
    rw [hout]
    simp
  · exact dispatch_error_halted env gcode rest st herr

/-- Witness of C6: the executor rejects `G1X2` with the text `Bad`. -/
theorem C6_executor_failure_reply_witness :
    (dispatch (env_fail_G1 "Bad".toList false) (parse_Gcode "G1X2".toList false) []
        (state0 0 false)).out = (state0 0 false).out ++
          ["error:".toList, "Bad".toList ++ "\r\n".toList,
           "Entering Alarm/Halt state\n".toList]
      ∧ (dispatch (env_fail_G1 "Bad".toList false) (parse_Gcode "G1X2".toList false) []
        (state0 0 false)).out.flatten = (state0 0 false).out.flatten ++
          ("error:".toList ++ "Bad".toList ++ "\r\n".toList
            ++ "Entering Alarm/Halt state\n".toList) :=
  (C6_executor_failure_reply (env_fail_G1 "Bad".toList false)
    (parse_Gcode "G1X2".toList false) [] (state0 0 false) (by decide)).1 (by decide)

/-- C7. Halt reset: when a pass of the loop decodes a command with M-code 999 while the
machine is Halted, the call returns there with the machine in Normal mode (the `ON_HALT`
handlers are called with the clearing argument), the writes are the HOME warning and
`ok\n`, nothing is handed to the executor and `modal_group_1` is as before. In Normal
mode the gate lets the command through like any other, and a command without a G-code
is handed to the executor. -/
theorem C7_halt_reset (env : Env σ) (pc : Str) (cp : Option Nat) (st : State σ)
    (fuel : Nat) (hpc : pc ≠ [])
    (h999 : (pass_gcode env pc cp st).has_m = true ∧ (pass_gcode env pc cp st).m = 999) :
    (st.halted = true →
      ∃ st', loop env (fuel + 1) pc cp st = some st'
        ∧ st'.halted = false
        ∧ st'.ext = env.on_halt true (pass_state env pc cp st).ext
        ∧ st'.out = st.out ++
            ["WARNING: After HALT you should HOME as position is currently unknown\n".toList,
             "ok\n".toList]
        ∧ st'.sent = st.sent
        ∧ st'.modal_group_1 = st.modal_group_1)
    ∧ (st.halted = false →
      halt_gate env (pass_gcode env pc cp st) (pass_state env pc cp st)
          = .cont (pass_state env pc cp st)
        ∧ ((pass_gcode env pc cp st).has_g = false →
          loop_body env pc cp st = .cont (pass_rest pc cp, next_cmd_pos pc cp,
              dispatch env (pass_gcode env pc cp st) (pass_rest pc cp)
                (pass_state env pc cp st))
          ∧ (dispatch env (pass_gcode env pc cp st) (pass_rest pc cp)
                (pass_state env pc cp st)).sent
              = st.sent ++ [⟨pass_gcode env pc cp st, false, st.next_command_is_MCS⟩]))
    ∧ (∀ mg b, ∃ st', on_console_line_received (env_ok b) 20 "M999".toList (state0 mg true)
          = some st'
        ∧ st'.halted = false
        ∧ st'.out =
            ["WARNING: After HALT you should HOME as position is currently unknown\n".toList,
             "ok\n".toList]
        ∧ st'.sent = [] ∧ st'.modal_group_1 = mg)
    ∧ (∀ mg b, ∃ st', on_console_line_received (env_ok b) 20 "M999".toList (state0 mg false)
          = some st'
        ∧ st'.out = ["ok\r\n".toList]
        ∧ st'.sent = [⟨parse_Gcode "M999".toList false, false, false⟩]) := by
  refine ⟨fun hhalt => ?_, fun hnormal => ?_, ?_, ?_⟩
  · have h1 : (pass_state env pc cp st).halted = true := hhalt
    refine ⟨printf (printf (call_event_ON_HALT env true (pass_state env pc cp st))
        "WARNING: After HALT you should HOME as position is currently unknown\n".toList)
        "ok\n".toList, ?_, rfl, rfl, ?_, rfl, rfl⟩
    · rw [loop_succ env fuel pc cp st hpc, loop_body_eq]
      simp [halt_gate, h1, h999.1, h999.2]
    · simp [printf, call_event_ON_HALT, pass_state, decode]
  · have h1 : (pass_state env pc cp st).halted = false := hnormal
    refine ⟨halt_gate_normal env _ _ h1, fun hg => ⟨?_, ?_⟩⟩
    · rw [loop_body_eq, halt_gate_normal env _ _ h1]
      simp [resolve_G53, hg]
    · rw [dispatch_sent]
      simp [pass_state, decode, hnormal]
  · intro mg b
    exact ⟨_, rfl, rfl, rfl, rfl, rfl⟩
  · intro mg b
    cases b <;> exact ⟨_, rfl, rfl, rfl⟩

/-- Witness of C7: `M999G0X1` received while Halted. -/
theorem C7_halt_reset_witness :
    ∃ st', loop (env_ok false) 1 "M999G0X1".toList none (state0 2 true) = some st'
      ∧ st'.halted = false
      ∧ st'.ext = (env_ok false).on_halt true
          (pass_state (env_ok false) "M999G0X1".toList none (state0 2 true)).ext
      ∧ st'.out = (state0 2 true).out ++
          ["WARNING: After HALT you should HOME as position is currently unknown\n".toList,
           "ok\n".toList]
      ∧ st'.sent = (state0 2 true).sent
      ∧ st'.modal_group_1 = (state0 2 true).modal_group_1 :=
  (C7_halt_reset (env_ok false) "M999G0X1".toList none (state0 2 true) 0 (by decide)
    (by decide)).1 rfl

/-- C8. G53 with content remaining on the line, in Normal mode: the rest of the line is
decoded as one command. If it has a G-code `<= 1`, that command alone is handed to the
executor, with `next_command_is_MCS` set, and the loop ends; otherwise the call returns
with the one write `ok - Invalid G53\r\n`, nothing handed to the executor, and
`next_command_is_MCS` and `modal_group_1` as before. `G53 G0 X0 Y0` dispatches
`G0 X0 Y0` with the flag set, whatever `modal_group_1` is. -/
theorem C8_G53_with_rest (env : Env σ) (pc : Str) (cp : Option Nat) (st : State σ)
    (fuel : Nat) (hpc : pc ≠ []) (hnormal : st.halted = false)
    (hg : (pass_gcode env pc cp st).has_g = true ∧ (pass_gcode env pc cp st).g = 53)
    (hrest : pass_rest pc cp ≠ []) :
    ((env.new_Gcode (pass_rest pc cp) true).has_g = true
        ∧ (env.new_Gcode (pass_rest pc cp) true).g ≤ 1 →
      ∃ st', loop env (fuel + 2) pc cp st = some st'
        ∧ st'.sent = st.sent ++ [⟨env.new_Gcode (pass_rest pc cp) true, false, true⟩]
        ∧ st'.modal_group_1 = (env.new_Gcode (pass_rest pc cp) true).g)
    ∧ (¬ ((env.new_Gcode (pass_rest pc cp) true).has_g = true
        ∧ (env.new_Gcode (pass_rest pc cp) true).g ≤ 1) →
      ∃ st', loop env (fuel + 1) pc cp st = some st'
        ∧ st'.out = st.out ++ ["ok - Invalid G53\r\n".toList]
        ∧ st'.sent = st.sent
        ∧ st'.next_command_is_MCS = st.next_command_is_MCS
        ∧ st'.modal_group_1 = st.modal_group_1)
    ∧ (∀ mg b, ∃ st',
        on_console_line_received (env_ok b) 20 "G53 G0 X0 Y0".toList (state0 mg false)
          = some st'
        ∧ st'.sent = [⟨parse_Gcode "G0 X0 Y0".toList true, false, true⟩]
        ∧ st'.out = ["ok\r\n".toList]) := by
  have h1 : (pass_state env pc cp st).halted = false := hnormal
  have hrest' : (pass_rest pc cp).isEmpty = false := by
    cases h : pass_rest pc cp with
    | nil => exact absurd h hrest
    | cons a as => rfl
  refine ⟨fun h2 => ?_, fun h2 => ?_, ?_⟩
  · have hlt : (env.new_Gcode (pass_rest pc cp) true).g < 4 := by omega
    have hle : ¬ (env.new_Gcode (pass_rest pc cp) true).g > 1 := by omega
    refine ⟨dispatch env (env.new_Gcode (pass_rest pc cp) true) []
        { pass_state env pc cp st with
            next_command_is_MCS := true
            modal_group_1 := (env.new_Gcode (pass_rest pc cp) true).g }, ?_, ?_, ?_⟩
    · rw [loop_succ env (fuel + 1) pc cp st hpc, loop_body_eq,
        halt_gate_normal env _ _ h1]
      simp [resolve_G53, hg.1, hg.2, hrest', h2.1, hle, hlt, loop_nil]
    · rw [dispatch_sent]
      simp [pass_state, decode, hnormal]
    · rw [dispatch_modal]
  · have hbad : (!(env.new_Gcode (pass_rest pc cp) true).has_g
        || decide ((env.new_Gcode (pass_rest pc cp) true).g > 1)) = true := by
      by_contra hcon
      simp only [Bool.not_eq_true, Bool.or_eq_false_iff, Bool.not_eq_false',
        decide_eq_false_iff_not, not_lt] at hcon
      exact h2 ⟨hcon.1, by omega⟩
    refine ⟨printf (pass_state env pc cp st) "ok - Invalid G53\r\n".toList, ?_, rfl, rfl,
      rfl, rfl⟩
    rw [loop_succ env fuel pc cp st hpc, loop_body_eq, halt_gate_normal env _ _ h1]
    simp only [resolve_G53, hg.1, hg.2, hrest', if_true, Bool.false_eq_true, if_false]
    rw [if_pos hbad]
  · intro mg b
    cases b <;> exact ⟨_, rfl, rfl, rfl⟩

/-- Witness of C8: `G53 G1 X5` in Normal mode with `modal_group_1 = 7`; the rest of the
line `G1 X5` is handed to the executor in machine coordinates. -/
theorem C8_G53_with_rest_witness :
    ∃ st', loop (env_ok false) 2 "G53 G1 X5".toList none (state0 7 false) = some st'
      ∧ st'.sent = (state0 7 false).sent ++
          [⟨(env_ok false).new_Gcode (pass_rest "G53 G1 X5".toList none) true, false, true⟩]
      ∧ st'.modal_group_1
          = ((env_ok false).new_Gcode (pass_rest "G53 G1 X5".toList none) true).g :=
  (C8_G53_with_rest (env_ok false) "G53 G1 X5".toList none (state0 7 false) 0 (by decide)
    rfl (by decide) (by decide)).1 (by decide)

/-- C9. G53 with nothing remaining on the line, in Normal mode: if `modal_group_1 <= 3`
the command is handed to the executor with its G-code replaced by `modal_group_1` and
`next_command_is_MCS` set, and `modal_group_1` is as before; if `modal_group_1 > 3` the
call returns with the one write `ok - Invalid G53\r\n`, nothing handed to the executor,
the flag as before and the machine still in Normal mode. `G53 X0 Y0` with
`modal_group_1 = 1` dispatches a G1 command; `G53 X0` with `modal_group_1 = 5` replies
`ok - Invalid G53\r\n`. -/
theorem C9_G53_alone (env : Env σ) (pc : Str) (cp : Option Nat) (st : State σ)
    (fuel : Nat) (hpc : pc ≠ []) (hnormal : st.halted = false)
    (hg : (pass_gcode env pc cp st).has_g = true ∧ (pass_gcode env pc cp st).g = 53)
    (hrest : pass_rest pc cp = []) :
    (st.modal_group_1 ≤ 3 →
      ∃ st', loop env (fuel + 2) pc cp st = some st'
        ∧ st'.sent = st.sent ++
            [⟨{ pass_gcode env pc cp st with g := st.modal_group_1 }, false, true⟩]
        ∧ st'.modal_group_1 = st.modal_group_1)
    ∧ (st.modal_group_1 > 3 →
      ∃ st', loop env (fuel + 1) pc cp st = some st'
        ∧ st'.out = st.out ++ ["ok - Invalid G53\r\n".toList]
        ∧ st'.sent = st.sent
        ∧ st'.next_command_is_MCS = st.next_command_is_MCS
        ∧ st'.halted = false
        ∧ st'.modal_group_1 = st.modal_group_1)
    ∧ (∀ b, ∃ st',
        on_console_line_received (env_ok b) 20 "G53 X0 Y0".toList (state0 1 false)
          = some st'
        ∧ st'.sent = [⟨{ parse_Gcode "G53 X0 Y0".toList false with g := 1 }, false, true⟩]
        ∧ st'.modal_group_1 = 1)
    ∧ (∀ b, ∃ st',
        on_console_line_received (env_ok b) 20 "G53 X0".toList (state0 5 false)
          = some st'
        ∧ st'.out = ["ok - Invalid G53\r\n".toList] ∧ st'.sent = []
        ∧ st'.next_command_is_MCS = false ∧ st'.halted = false) := by
  have h1 : (pass_state env pc cp st).halted = false := hnormal
  have hm : (pass_state env pc cp st).modal_group_1 = st.modal_group_1 := rfl
  refine ⟨fun h2 => ?_, fun h2 => ?_, ?_, ?_⟩
  · have hlt : st.modal_group_1 < 4 := by omega
    have hle : ¬ st.modal_group_1 > 3 := by omega
    refine ⟨dispatch env { pass_gcode env pc cp st with g := st.modal_group_1 } []
        { pass_state env pc cp st with next_command_is_MCS := true }, ?_, ?_, ?_⟩
    · rw [loop_succ env (fuel + 1) pc cp st hpc, loop_body_eq,
        halt_gate_normal env _ _ h1]
      simp [resolve_G53, hg.1, hg.2, hrest, hm, hle, hlt, loop_nil]
    · rw [dispatch_sent]
      simp [pass_state, decode, hnormal]
    · rw [dispatch_modal]
      rfl
  · refine ⟨printf (pass_state env pc cp st) "ok - Invalid G53\r\n".toList, ?_, rfl, rfl,
      rfl, hnormal, rfl⟩
    rw [loop_succ env fuel pc cp st hpc, loop_body_eq, halt_gate_normal env _ _ h1]
    simp [resolve_G53, hg.1, hg.2, hrest, hm, h2]
  · intro b
    cases b <;> exact ⟨_, rfl, rfl, rfl⟩
  · intro b
    exact ⟨_, rfl, rfl, rfl, rfl, rfl⟩

/-- Witness of C9: `G53 X0 Y0` in Normal mode with `modal_group_1 = 2`. -/
theorem C9_G53_alone_witness :
    ∃ st', loop (env_ok false) 2 "G53 X0 Y0".toList none (state0 2 false) = some st'
      ∧ st'.sent = (state0 2 false).sent ++
          [⟨{ pass_gcode (env_ok false) "G53 X0 Y0".toList none (state0 2 false) with
                g := (state0 2 false).modal_group_1 }, false, true⟩]
      ∧ st'.modal_group_1 = (state0 2 false).modal_group_1 :=
  (C9_G53_alone (env_ok false) "G53 X0 Y0".toList none (state0 2 false) 0 (by decide)
    rfl (by decide) (by decide)).1 (by decide)

/-! ## The whole loop -/

theorem halt_gate_cases (env : Env σ) (gc : Gcode) (st : State σ) :
    (∃ st1, halt_gate env gc st = .ret st1 ∧ st1.sent = st.sent)
    ∨ (halt_gate env gc st = .cont st ∧ (st.halted = true → is_allowed_mcode gc.m = true)) := by
  unfold halt_gate
  by_cases hh : st.halted = true
  · by_cases h9 : (gc.has_m && gc.m == 999) = true
    · left
      simp only [hh, h9, if_true]
      exact ⟨_, rfl, rfl⟩
    · by_cases ha : is_allowed_mcode gc.m = true
      · right
        simp [hh, h9, ha]
      · left
        simp only [hh, h9, ha, if_true, Bool.false_eq_true, if_false, Bool.not_false]
        exact ⟨_, rfl, rfl⟩
  · right
    simp [hh]

theorem resolve_G53_cases (env : Env σ) (gc : Gcode) (rest : Str) (st : State σ) :
    (∃ st1, resolve_G53 env gc rest st = .ret st1 ∧ st1.sent = st.sent)
    ∨ (∃ g pc' st2, resolve_G53 env gc rest st = .cont (g, pc', st2)
        ∧ st2.sent = st.sent ∧ st2.halted = st.halted ∧ (pc' = rest ∨ pc' = [])
        ∧ (g.m = gc.m
          ∨ (st2.next_command_is_MCS = true
              ∧ ∃ r : Str, r ≠ [] ∧ g = env.new_Gcode r true))) := by
  unfold resolve_G53
  by_cases hg : gc.has_g = true
  · rw [if_pos hg]
    by_cases h53 : gc.g = 53
    · rw [if_pos h53]
      by_cases he : rest.isEmpty = true
      · rw [if_pos he]
        by_cases hm : st.modal_group_1 > 3
        · left
          rw [if_pos hm]
          exact ⟨_, rfl, rfl⟩
        · right
          rw [if_neg hm]
          dsimp only
          by_cases hlt : st.modal_group_1 < 4
          · rw [if_pos hlt]
            exact ⟨_, _, _, rfl, rfl, rfl, Or.inl rfl, Or.inl rfl⟩
          · rw [if_neg hlt]
            exact ⟨_, _, _, rfl, rfl, rfl, Or.inl rfl, Or.inl rfl⟩
      · rw [if_neg he]
        have hne : rest ≠ [] := by
          intro h0
          exact he (by rw [h0]; rfl)
        dsimp only
        by_cases hb : (!(env.new_Gcode rest true).has_g
            || decide ((env.new_Gcode rest true).g > 1)) = true
        · left
          rw [if_pos hb]
          exact ⟨_, rfl, rfl⟩
        · right
          rw [if_neg hb]
          dsimp only
          by_cases hlt : (env.new_Gcode rest true).g < 4
          · rw [if_pos hlt]
            exact ⟨_, _, _, rfl, rfl, rfl, Or.inr rfl, Or.inr ⟨rfl, rest, hne, rfl⟩⟩
          · rw [if_neg hlt]
            exact ⟨_, _, _, rfl, rfl, rfl, Or.inr rfl, Or.inr ⟨rfl, rest, hne, rfl⟩⟩
    · right
      rw [if_neg h53]
      dsimp only
      by_cases hlt : gc.g < 4
      · rw [if_pos hlt]
        exact ⟨_, _, _, rfl, rfl, rfl, Or.inl rfl, Or.inl rfl⟩
      · rw [if_neg hlt]
        exact ⟨_, _, _, rfl, rfl, rfl, Or.inl rfl, Or.inl rfl⟩
  · right
    rw [if_neg hg]
    exact ⟨_, _, _, rfl, rfl, rfl, Or.inl rfl, Or.inl rfl⟩

theorem loop_body_cases (env : Env σ) (pc : Str) (cp : Option Nat) (st : State σ) :
    (∃ st1, loop_body env pc cp st = .ret st1 ∧ st1.sent = st.sent)
    ∨ (∃ pc' st1 e, loop_body env pc cp st = .cont (pc', next_cmd_pos pc cp, st1)
        ∧ (pc' = pass_rest pc cp ∨ pc' = []) ∧ st1.sent = st.sent ++ [e] ∧ gated env e) := by
  rw [loop_body_eq]
  rcases halt_gate_cases env (pass_gcode env pc cp st) (pass_state env pc cp st) with
    ⟨st1, h1, h2⟩ | ⟨h1, h2⟩
  · left
    rw [h1]
    exact ⟨st1, rfl, h2⟩
  · rw [h1]
    rcases resolve_G53_cases env (pass_gcode env pc cp st) (pass_rest pc cp)
      (pass_state env pc cp st) with ⟨st2, h3, h4⟩ | ⟨g, pc', st2, h3, h4, h5, h6, h7⟩
    · left
      dsimp only
      rw [h3]
      exact ⟨st2, rfl, h4⟩
    · right
      dsimp only
      rw [h3]
      refine ⟨pc', _, ⟨g, st2.halted, st2.next_command_is_MCS⟩, rfl, h6, ?_, ?_⟩
      · rw [dispatch_sent, h4]
        rfl
      · intro hh
        rcases h7 with h7 | h7
        · left
          show is_allowed_mcode g.m = true
          rw [h7]
          exact h2 (by rw [← h5]; exact hh)
        · right
          exact h7

theorem pass_rest_entry {pc : Str} {cp : Option Nat} (hin : loop_entry pc cp) :
    pass_rest pc cp = []
    ∨ (loop_entry (pass_rest pc cp) (next_cmd_pos pc cp)
        ∧ (pass_rest pc cp).length + 2 ≤ pc.length) := by
  unfold pass_rest cut
  cases hnext : next_cmd_pos pc cp with
  | none => left; rfl
  | some p =>
    right
    obtain ⟨hp2, hp⟩ := next_cmd_pos_some hin hnext
    have hplt := holds_one_of_lt hp
    refine ⟨Or.inr (first_char_of_drop hp), ?_⟩
    show (pc.drop p).length + 2 ≤ pc.length
    rw [List.length_drop]
    omega

/-- The loop ends within `length + 1` passes, and every command it hands to the executor
while the machine is Halted carries an allow-listed M-code, the ones built by the G53
resolver from the rest of the line apart. -/
theorem loop_terminates (env : Env σ) (fuel : Nat) (pc : Str) (cp : Option Nat)
    (st : State σ) (hin : pc = [] ∨ loop_entry pc cp) (hfuel : pc.length < fuel) :
    ∃ st' new, loop env fuel pc cp st = some st' ∧ st'.sent = st.sent ++ new
      ∧ ∀ e ∈ new, gated env e := by
  induction fuel generalizing pc cp st with
  | zero => omega
  | succ fuel ih =>
    by_cases hpc : pc = []
    · subst hpc
      exact ⟨st, [], loop_nil env fuel cp st, by simp, by simp⟩
    · have hin' : loop_entry pc cp := hin.resolve_left hpc
      rw [loop_succ env fuel pc cp st hpc]
      rcases loop_body_cases env pc cp st with ⟨st1, h1, h2⟩ | ⟨pc', st1, e, h1, h2, h3, h4⟩
      · rw [h1]
        exact ⟨st1, [], rfl, by simp [h2], by simp⟩
      · rw [h1]
        have hentry : pc' = [] ∨ loop_entry pc' (next_cmd_pos pc cp) := by
          rcases h2 with h2 | h2
          · rcases pass_rest_entry hin' with h5 | h5
            · left; rw [h2, h5]
            · right; rw [h2]; exact h5.1
          · left; exact h2
        have hlen : pc'.length < fuel := by
          have hpos : pc.length > 0 := List.length_pos.2 hpc
          rcases h2 with h2 | h2
          · rcases pass_rest_entry hin' with h5 | h5
            · rw [h2, h5]; simp; omega
            · rw [h2]; omega
          · rw [h2]; simp; omega
        obtain ⟨st', new, h6, h7, h8⟩ := ih pc' (next_cmd_pos pc cp) st1 hentry hlen
        refine ⟨st', e :: new, h6, by rw [h7, h3]; simp, ?_⟩
        intro x hx
        rcases List.mem_cons.1 hx with hx | hx
        · rw [hx]; exact h4
        · exact h8 x hx

/-- C4 at the failing input. The line `SG53M105 G0X1` is received while Halted. Its first
command `SG53M105 ` carries the allow-listed M105, so it passes the halt gate; it also
carries G53, so the resolver replaces it by the rest of the line, `G0X1`, which is handed
to the executor while Halted although its M-code, 0, is not allow-listed. -/
theorem C4_G53_reparse_passes_halt_gate :
    split_commands 20 "SG53M105 G0X1".toList
        = some ["SG53M105 ".toList, "G0X1".toList]
    ∧ (parse_Gcode "SG53M105 ".toList false).g = 53
    ∧ (parse_Gcode "SG53M105 ".toList false).m = 105
    ∧ is_allowed_mcode (parse_Gcode "G0X1".toList true).m = false
    ∧ ∃ st', on_console_line_received (env_ok false) 20 "SG53M105 G0X1".toList
          (state0 0 true) = some st'
        ∧ st'.sent = [⟨parse_Gcode "G0X1".toList true, true, true⟩]
        ∧ st'.halted = true :=
  ⟨by decide, by decide, by decide, by decide, _, rfl, rfl, rfl⟩

/-- C5 fails as stated. The executor rejects the second command of `G0X1G1X2M105`, and
the third command, M105, is handed to the executor all the same, the machine being
Halted. With one ok per line, the first command of `G0X1G1X2M3` gets no ok before the
second fails. -/
theorem C5_counterexample :
    split_commands 20 "G0X1G1X2M105".toList
        = some ["G0X1".toList, "G1X2".toList, "M105".toList]
    ∧ (∀ h m e, ((env_fail_G1 [] false).on_gcode_received
          (parse_Gcode "G1X2".toList false) h m e).is_error = true)
    ∧ (∃ st', on_console_line_received (env_fail_G1 [] false) 20 "G0X1G1X2M105".toList
          (state0 0 false) = some st'
        ∧ st'.sent = [⟨parse_Gcode "G0X1".toList false, false, false⟩,
                      ⟨parse_Gcode "G1X2".toList false, false, false⟩,
                      ⟨parse_Gcode "M105".toList false, true, false⟩])
    ∧ (∃ st', on_console_line_received (env_fail_G1 [] true) 20 "G0X1G1X2M3".toList
          (state0 0 false) = some st'
        ∧ st'.out = ["error:".toList, "unknown\r\n".toList,
                     "Entering Alarm/Halt state\n".toList, "error:Alarm lock\n".toList]) :=
  ⟨by decide, fun _ _ _ => rfl, ⟨_, rfl, rfl⟩, ⟨_, rfl, rfl⟩⟩

/-- C5, amended. When the executor reports an error for a command, the machine is Halted
afterwards and the loop goes on with the rest of the line, through the halt gate: if the
next command is M999 or has an M-code that `is_allowed_mcode` rejects, the call returns
and nothing more of the line is handed to the executor (so the next command is handed
over only if its M-code is allow-listed). With an ok after each command, when the second
of the three commands of `G0X1G1X2M3` fails, the ok of the first was already written,
the machine is Halted and the third command is not dispatched. -/
theorem C5_after_executor_failure (env : Env σ) (gcode : Gcode) (rest : Str)
    (cp : Option Nat) (st : State σ) (fuel : Nat)
    (herr : (outcome env gcode st).is_error = true) :
    (dispatch env gcode rest st).halted = true
    ∧ (rest ≠ [] →
        (is_allowed_mcode (pass_gcode env rest cp (dispatch env gcode rest st)).m = false
          ∨ ((pass_gcode env rest cp (dispatch env gcode rest st)).has_m = true
              ∧ (pass_gcode env rest cp (dispatch env gcode rest st)).m = 999)) →
        ∃ st', loop env (fuel + 1) rest cp (dispatch env gcode rest st) = some st'
          ∧ st'.sent = (dispatch env gcode rest st).sent)
    ∧ (∃ st', on_console_line_received (env_fail_G1 [] false) 20 "G0X1G1X2M3".toList
          (state0 0 false) = some st'
        ∧ st'.out = ["ok\r\n".toList, "error:".toList, "unknown\r\n".toList,
                     "Entering Alarm/Halt state\n".toList, "error:Alarm lock\n".toList]
        ∧ st'.sent = [⟨parse_Gcode "G0X1".toList false, false, false⟩,
                      ⟨parse_Gcode "G1X2".toList false, false, false⟩]
        ∧ st'.halted = true) := by
  have hhalt : (dispatch env gcode rest st).halted = true :=
    dispatch_error_halted env gcode rest st herr
  refine ⟨hhalt, fun hrest hnext => ?_, ⟨_, rfl, rfl, rfl, rfl⟩⟩
  rw [loop_succ env fuel rest cp _ hrest]
  rcases loop_body_cases env rest cp (dispatch env gcode rest st) with
    ⟨st1, h1, h2⟩ | ⟨pc', st1, e, h1, -, -, -⟩
  · rw [h1]
    exact ⟨st1, rfl, h2⟩
  · exfalso
    rw [loop_body_eq] at h1
    have hh : (pass_state env rest cp (dispatch env gcode rest st)).halted = true := hhalt
    rcases hnext with hn | hn
    · by_cases h9 : ((pass_gcode env rest cp (dispatch env gcode rest st)).has_m
          && (pass_gcode env rest cp (dispatch env gcode rest st)).m == 999) = true
      · simp [halt_gate, hh, h9] at h1
      · simp [halt_gate, hh, h9, hn] at h1
    · simp [halt_gate, hh, hn.1, hn.2] at h1

/-- Witness of the amended C5: the executor rejects `G1X2`, and `M3` is next on the
line. -/
theorem C5_after_executor_failure_witness :
    ∃ st', loop (env_fail_G1 [] false) 1 "M3".toList (some 4)
        (dispatch (env_fail_G1 [] false) (parse_Gcode "G1X2".toList false) "M3".toList
          (state0 0 false)) = some st'
      ∧ st'.sent = (dispatch (env_fail_G1 [] false) (parse_Gcode "G1X2".toList false)
          "M3".toList (state0 0 false)).sent :=
  (C5_after_executor_failure (env_fail_G1 [] false) (parse_Gcode "G1X2".toList false)
    "M3".toList (some 4) (state0 0 false) 0 (by decide)).2.1 (by decide)
    (Or.inl (by decide))

/-! ## The dispatch pass -/

theorem findSubFrom_some {pat s : Str} {i k : Nat} (h : findSubFrom pat s i = some k) :
    i ≤ k ∧ (k - i) + pat.length ≤ s.length := by
  induction s generalizing i with
  | nil =>
    unfold findSubFrom at h
    split_ifs at h with hp
    · have : pat = [] := by simpa using hp
      simp only [Option.some.injEq] at h
      subst h
      simp [this]
  | cons c cs ih =>
    unfold findSubFrom at h
    split_ifs at h with hp
    · simp only [Option.some.injEq] at h
      subst h
      have := (List.isPrefixOf_iff_prefix.1 hp).length_le
      simp only [List.length_cons] at this ⊢
      omega
    · have := ih h
      simp only [List.length_cons]
      omega

theorem promote_G90_G91_length (s : Str) : (promote_G90_G91 s).length = s.length := by
  unfold promote_G90_G91
  dsimp only
  cases h90 : find s "G90".toList with
  | some p =>
    have := (findSubFrom_some h90).2
    simp only [String.toList, List.length_cons, List.length_nil] at this
    simp only [erase, List.length_append, List.length_take, List.length_drop, String.toList,
      List.length_cons, List.length_nil]
    omega
  | none =>
    cases h91 : find s "G91".toList with
    | some p =>
      have := (findSubFrom_some h91).2
      simp only [String.toList, List.length_cons, List.length_nil] at this
      simp only [erase, List.length_append, List.length_take, List.length_drop, String.toList,
        List.length_cons, List.length_nil]
      omega
    | none => rfl

theorem remove_comments_length (s : Str) : (remove_comments s).length ≤ s.length := by
  unfold remove_comments
  split
  · simp only [substr_to, List.length_take]; omega
  · exact le_refl _

theorem strip_line_number_length (s : Str) : (strip_line_number s).length ≤ s.length := by
  unfold strip_line_number
  split
  · simp only [substr_from, List.length_drop]; omega
  · simp

theorem normalize_length (c : Char) (s : Str) : (normalize c s).length ≤ s.length := by
  unfold normalize
  dsimp only
  refine le_trans (remove_comments_length _) ?_
  by_cases hG : c = 'G'
  · rw [if_pos hG, promote_G90_G91_length]
    by_cases hN : c = 'N'
    · rw [if_pos hN]; exact strip_line_number_length s
    · rw [if_neg hN]
  · rw [if_neg hG]
    by_cases hN : c = 'N'
    · rw [if_pos hN]; exact strip_line_number_length s
    · rw [if_neg hN]

theorem toDigits_length_le (n : Nat) (h : n < 256) : (Nat.toDigits 10 n).length ≤ 3 :=
  Nat.toDigitsCore_length 10 (by decide) (n + 1) n 3 (by omega) (by decide)

theorem snprintf_G_eq (n : Nat) (h : n < 256) :
    snprintf_G n = 'G' :: (Nat.toDigits 10 n ++ [' ']) := by
  unfold snprintf_G
  have := toDigits_length_le n h
  rw [List.cons_append, List.take_of_length_le]
  simp only [List.length_cons, List.length_append, List.length_nil]
  omega

theorem try_again_synth (env : Env σ) (fuel : Nat) (c : Char) (l : Str) (st : State σ)
    (hc : c = 'X' ∨ c = 'Y' ∨ c = 'Z' ∨ c = 'A' ∨ c = 'F') :
    try_again env (fuel + 1) (c :: l) st
      = try_again env fuel
          ((if c = 'F' then "G1 ".toList else snprintf_G st.modal_group_1) ++ c :: l) st := by
  rcases hc with rfl | rfl | rfl | rfl | rfl <;>
    simp [try_again, first_char_of, islower, find_first_of, findFrom]

theorem try_again_command (env : Env σ) (fuel : Nat) (l : Str) (st : State σ) :
    try_again env (fuel + 1) ('G' :: l) st = loop env fuel (normalize 'G' ('G' :: l)) none st := by
  simp [try_again, first_char_of, islower]

theorem ltrim_length (s : Str) : (ltrim s).length ≤ s.length :=
  (List.dropWhile_sublist isspace).length_le

theorem snprintf_G_cons (n : Nat) : ∃ b, snprintf_G n = 'G' :: b ∧ b.length ≤ 4 := by
  refine ⟨((Nat.toDigits 10 n) ++ [' ']).take 4, rfl, ?_⟩
  rw [List.length_take]
  omega

theorem on_console_line_received_synth (env : Env σ) (fuel : Nat) (message : Str)
    (st : State σ) (c : Char) (hc : (ltrim message).head? = some c)
    (hx : c = 'X' ∨ c = 'Y' ∨ c = 'Z' ∨ c = 'A' ∨ c = 'F') :
    on_console_line_received env (fuel + 1) message st
      = try_again env fuel
          ((if c = 'F' then "G1 ".toList else snprintf_G st.modal_group_1)
            ++ ltrim message) st := by
  obtain ⟨l, hl⟩ : ∃ l, ltrim message = c :: l := by
    cases h : ltrim message with
    | nil => rw [h] at hc; simp at hc
    | cons a l => rw [h] at hc; simp at hc; exact ⟨l, by rw [hc]⟩
  have hne : message.isEmpty = false := by
    cases message with
    | nil => simp [ltrim] at hl
    | cons a as => rfl
  unfold on_console_line_received
  simp only [hne, Bool.false_eq_true, if_false]
  rw [hl]
  exact try_again_synth env fuel c l st hx

theorem on_console_line_received_G (env : Env σ) (fuel : Nat) (l : Str) (st : State σ) :
    on_console_line_received env fuel ('G' :: l) st = try_again env fuel ('G' :: l) st := by
  unfold on_console_line_received
  have : ltrim ('G' :: l) = 'G' :: l := by
    unfold ltrim
    rw [List.dropWhile_cons_of_neg (by decide)]
  simp [this]

/-- C10. Implicit-Command Synthesizer: a line whose first character after `ltrim` is X, Y,
Z or A is processed as the line made of `G`, the decimal digits of `modal_group_1`, a
blank and the trimmed line is (`modal_group_1` being a `uint8_t`); a line whose first
character is F is processed as `G1 ` followed by the trimmed line, whatever
`modal_group_1` is; and the processing ends. With `modal_group_1 = 1` the line `X10 Y20`
is processed as `G1 X10 Y20`, which the splitter yields as one command, and exactly one
command, with G-code 1, is handed to the executor. -/
theorem C10_synthesizer (env : Env σ) (message : Str) (st : State σ) (fuel : Nat)
    (c : Char) (hc : (ltrim message).head? = some c) :
    (c = 'X' ∨ c = 'Y' ∨ c = 'Z' ∨ c = 'A' → st.modal_group_1 < 256 →
      on_console_line_received env (fuel + 1) message st
        = on_console_line_received env fuel
            ('G' :: (Nat.toDigits 10 st.modal_group_1 ++ ' ' :: ltrim message)) st)
    ∧ (c = 'F' →
      on_console_line_received env (fuel + 1) message st
        = on_console_line_received env fuel ("G1 ".toList ++ ltrim message) st)
    ∧ (c = 'X' ∨ c = 'Y' ∨ c = 'Z' ∨ c = 'A' ∨ c = 'F' → message.length + 8 ≤ fuel →
      ∃ st', on_console_line_received env fuel message st = some st')
    ∧ (∀ b, ∃ st',
        on_console_line_received (env_ok b) 20 "X10 Y20".toList (state0 1 false) = some st'
        ∧ on_console_line_received (env_ok b) 20 "G1 X10 Y20".toList (state0 1 false)
            = some st'
        ∧ split_commands 20 "G1 X10 Y20".toList = some ["G1 X10 Y20".toList]
        ∧ st'.sent = [⟨parse_Gcode "G1 X10 Y20".toList false, false, false⟩]
        ∧ (parse_Gcode "G1 X10 Y20".toList false).g = 1) := by
  refine ⟨fun hx hm => ?_, fun hF => ?_, fun hx hfuel => ?_, ?_⟩
  · have hx' : c = 'X' ∨ c = 'Y' ∨ c = 'Z' ∨ c = 'A' ∨ c = 'F' := by tauto
    have hnF : ¬ c = 'F' := by rcases hx with rfl | rfl | rfl | rfl <;> decide
    rw [on_console_line_received_synth env fuel message st c hc hx', if_neg hnF,
      on_console_line_received_G, snprintf_G_eq _ hm]
    simp
  · rw [on_console_line_received_synth env fuel message st c hc (by tauto), if_pos hF]
    exact (on_console_line_received_G env fuel _ st).symm
  · obtain ⟨f, rfl⟩ : ∃ f, fuel = f + 2 := ⟨fuel - 2, by omega⟩
    rw [on_console_line_received_synth env (f + 1) message st c hc hx]
    obtain ⟨b, hb, hblen⟩ : ∃ b, (if c = 'F' then "G1 ".toList
        else snprintf_G st.modal_group_1) = 'G' :: b ∧ b.length ≤ 4 := by
      by_cases hF : c = 'F'
      · rw [if_pos hF]; exact ⟨" 1".toList.reverse, rfl, by decide⟩
      · rw [if_neg hF]; exact snprintf_G_cons _
    rw [hb, List.cons_append, try_again_command]
    have hlen : (normalize 'G' ('G' :: (b ++ ltrim message))).length < f := by
      have h1 := normalize_length 'G' ('G' :: (b ++ ltrim message))
      have h2 := ltrim_length message
      simp only [List.length_cons, List.length_append] at h1
      omega
    obtain ⟨st', -, h, -⟩ := loop_terminates env f _ none st (Or.inr (Or.inl rfl)) hlen
    exact ⟨st', h⟩
  · intro b
    cases b <;> exact ⟨_, rfl, rfl, by decide, rfl, by decide⟩

/-- Witness of C10: the line `  Y7` (two leading blanks) with `modal_group_1 = 3`. -/
theorem C10_synthesizer_witness :
    on_console_line_received (env_ok false) (20 + 1) "  Y7".toList (state0 3 false)
      = on_console_line_received (env_ok false) 20
          ('G' :: (Nat.toDigits 10 (state0 3 false).modal_group_1
            ++ ' ' :: ltrim "  Y7".toList)) (state0 3 false) :=
  (C10_synthesizer (env_ok false) "  Y7".toList (state0 3 false) 20 'Y' (by decide)).1
    (by decide) (by decide)

/-! ## The T/S rule of the splitter -/

theorem next_cmd_pos_TS {s : Str} (hTS : s.head? = some 'T' ∨ s.head? = some 'S')
    (cp : Option Nat) :
    next_cmd_pos s cp =
      match find_first_of s "M".toList 2 with
      | none => find_first_of s "GST".toList 2
      | some m => find_first_of s "GMST".toList (m + 2) := by
  have hfc : first_char_of s = 'T' ∨ first_char_of s = 'S' := by
    unfold first_char_of
    rw [List.headD_eq_head?_getD]
    rcases hTS with h | h <;> rw [h]
    · left; rfl
    · right; rfl
  unfold next_cmd_pos
  rcases hfc with h | h <;> simp [h]

/-- C17. Command Splitter, T/S rule: on a remaining line `s` that starts with `T` or `S`,
with `m` the smallest index `>= 2` holding `M`: when there is no such index the command
ends just before the smallest index `>= 2` holding one of G, S, T; when there is, the
command ends just before the smallest index `>= m + 2` holding one of G, M, S, T. When
there is no boundary the rest of the line is the last command. `S1000M3` is one
command. -/
theorem C17_split_TS_rule (s : Str) (cp : Option Nat) (fuel : Nat)
    (hTS : s.head? = some 'T' ∨ s.head? = some 'S') (hfuel : s.length < fuel) :
    (no_index_from s "M".toList 2 →
      (∀ p, smallest_index_from s "GST".toList 2 p →
        ∃ rest, split_loop fuel s cp = some (s.take p :: rest) ∧ rest.flatten = s.drop p)
      ∧ (no_index_from s "GST".toList 2 → split_loop fuel s cp = some [s]))
    ∧ (∀ m, smallest_index_from s "M".toList 2 m →
      (∀ p, smallest_index_from s "GMST".toList (m + 2) p →
        ∃ rest, split_loop fuel s cp = some (s.take p :: rest) ∧ rest.flatten = s.drop p)
      ∧ (no_index_from s "GMST".toList (m + 2) → split_loop fuel s cp = some [s]))
    ∧ split_commands 20 "S1000M3".toList = some ["S1000M3".toList] := by
  have hlen : s.length > 0 := by
    cases s with
    | nil => simp at hTS
    | cons a as => simp
  have hentry : loop_entry s cp := by
    right
    unfold first_char_of
    rw [List.headD_eq_head?_getD]
    rcases hTS with h | h <;> rw [h] <;> decide
  obtain ⟨f, rfl⟩ : ∃ f, fuel = f + 1 := ⟨fuel - 1, by omega⟩
  have hnext := next_cmd_pos_TS hTS cp
  refine ⟨fun hM => ⟨fun p hp => ?_, fun hno => ?_⟩,
    fun m hm => ⟨fun p hp => ?_, fun hno => ?_⟩, by decide⟩
  · refine split_loop_step_some hlen ?_ hentry hfuel
    rw [hnext, find_first_of_none_iff.2 hM]
    exact find_first_of_some_iff.2 hp
  · refine split_loop_step_none hlen ?_ (by omega)
    rw [hnext, find_first_of_none_iff.2 hM]
    exact find_first_of_none_iff.2 hno
  · refine split_loop_step_some hlen ?_ hentry hfuel
    rw [hnext, find_first_of_some_iff.2 hm]
    exact find_first_of_some_iff.2 hp
  · refine split_loop_step_none hlen ?_ (by omega)
    rw [hnext, find_first_of_some_iff.2 hm]
    exact find_first_of_none_iff.2 hno

/-- Witness of C17 on `T2M6G1X5`: `M` at index 2, so the command ends before the `G`
at index 4. -/
theorem C17_split_TS_rule_witness :
    ∃ rest, split_loop 20 "T2M6G1X5".toList none = some ("T2M6G1X5".toList.take 4 :: rest)
      ∧ rest.flatten = "T2M6G1X5".toList.drop 4 :=
  ((C17_split_TS_rule "T2M6G1X5".toList none 20 (by decide) (by decide)).2.1 2
    (by decide)).1 4 (by decide)

/-! ## The G90/G91 promotion -/

theorem findSubFrom_some_iff {pat s : Str} {i k : Nat} (hpat : pat ≠ []) :
    findSubFrom pat s i = some k ↔
      i ≤ k ∧ occurs_at s pat (k - i) ∧ ∀ q, q < k - i → ¬ occurs_at s pat q := by
  unfold occurs_at
  induction s generalizing i k with
  | nil =>
    have hp : pat.isEmpty = false := by
      cases pat with
      | nil => exact absurd rfl hpat
      | cons a as => rfl
    have hpre : pat.isPrefixOf ([] : Str) = false := by
      cases pat with
      | nil => exact absurd rfl hpat
      | cons a as => rfl
    simp [findSubFrom, hp, hpre]
  | cons c cs ih =>
    unfold findSubFrom
    by_cases hc : pat.isPrefixOf (c :: cs) = true
    · rw [if_pos hc]
      constructor
      · intro h
        simp only [Option.some.injEq] at h
        subst h
        simp [hc]
      · rintro ⟨h1, h2, h3⟩
        by_cases hk : k - i = 0
        · simp only [Option.some.injEq]; omega
        · exact absurd (by simpa using hc) (h3 0 (by omega))
    · rw [if_neg hc, ih]
      constructor
      · rintro ⟨h1, h2, h3⟩
        have hk : k - i = (k - (i + 1)) + 1 := by omega
        refine ⟨by omega, ?_, ?_⟩
        · rw [hk]; simpa using h2
        · intro q hq
          cases q with
          | zero => simpa using hc
          | succ q => simpa using h3 q (by omega)
      · rintro ⟨h1, h2, h3⟩
        have hne : k - i ≠ 0 := by
          intro h0
          rw [h0] at h2
          exact hc (by simpa using h2)
        have hk : k - i = (k - (i + 1)) + 1 := by omega
        refine ⟨by omega, ?_, ?_⟩
        · rw [hk] at h2; simpa using h2
        · intro q hq
          simpa using h3 (q + 1) (by omega)

theorem findSubFrom_none_iff {pat s : Str} {i : Nat} (hpat : pat ≠ []) :
    findSubFrom pat s i = none ↔ ∀ q, ¬ occurs_at s pat q := by
  unfold occurs_at
  induction s generalizing i with
  | nil =>
    have hp : pat.isEmpty = false := by
      cases pat with
      | nil => exact absurd rfl hpat
      | cons a as => rfl
    have hpre : pat.isPrefixOf ([] : Str) = false := by
      cases pat with
      | nil => exact absurd rfl hpat
      | cons a as => rfl
    simp [findSubFrom, hp, hpre]
  | cons c cs ih =>
    unfold findSubFrom
    by_cases hc : pat.isPrefixOf (c :: cs) = true
    · rw [if_pos hc]
      constructor
      · intro h
        exact absurd h (by simp)
      · intro h
        exact absurd (by simpa using hc) (h 0)
    · rw [if_neg hc, ih]
      constructor
      · intro h q
        cases q with
        | zero => simpa using hc
        | succ q => simpa using h q
      · intro h q
        simpa using h (q + 1)

theorem find_some_iff {pat s : Str} {k : Nat} (hpat : pat ≠ []) :
    find s pat = some k ↔ first_occurrence s pat k := by
  unfold find first_occurrence
  rw [findSubFrom_some_iff hpat]
  simp

theorem find_none_iff {pat s : Str} (hpat : pat ≠ []) :
    find s pat = none ↔ ¬ contains_token s pat := by
  unfold find contains_token
  rw [findSubFrom_none_iff hpat]
  simp

theorem occurs_at_three (s : Str) (p : Nat) (a b c : Char) :
    occurs_at s [a, b, c] p ↔
      s[p]? = some a ∧ s[p + 1]? = some b ∧ s[p + 2]? = some c := by
  unfold occurs_at
  have h0 : ∀ i, (s.drop p)[i]? = s[p + i]? := fun i => List.getElem?_drop s p i
  rw [← h0 1, ← h0 2, ← (show (s.drop p)[0]? = s[p]? from h0 0)]
  generalize s.drop p = t
  rcases t with _ | ⟨x, _ | ⟨y, _ | ⟨z, t⟩⟩⟩ <;> simp [List.isPrefixOf]
  tauto

theorem occurs_at_length {s pat : Str} {p : Nat} (h : occurs_at s pat p) :
    p + pat.length ≤ s.length ∨ pat = [] := by
  by_cases hpat : pat = []
  · right; exact hpat
  · left
    have := (List.isPrefixOf_iff_prefix.1 h).length_le
    rw [List.length_drop] at this
    have hpos : 0 < pat.length := List.length_pos.2 hpat
    omega

theorem promote_of_G90 {s : Str} {p : Nat} (h : first_occurrence s "G90".toList p) :
    promote_G90_G91 s = "G90".toList ++ (s.take p ++ s.drop (p + 3)) := by
  have hf : find s "G90".toList = some p := (find_some_iff (by decide)).2 h
  unfold promote_G90_G91
  dsimp only
  rw [hf]
  rfl

theorem promote_of_G91 {s : Str} {p : Nat} (h90 : ¬ contains_token s "G90".toList)
    (h : first_occurrence s "G91".toList p) :
    promote_G90_G91 s = "G91".toList ++ (s.take p ++ s.drop (p + 3)) := by
  have hn : find s "G90".toList = none := (find_none_iff (by decide)).2 h90
  have hf : find s "G91".toList = some p := (find_some_iff (by decide)).2 h
  unfold promote_G90_G91
  dsimp only
  rw [hn, hf]
  rfl

theorem promote_of_none {s : Str} (h90 : ¬ contains_token s "G90".toList)
    (h91 : ¬ contains_token s "G91".toList) : promote_G90_G91 s = s := by
  have hn : find s "G90".toList = none := (find_none_iff (by decide)).2 h90
  have hm : find s "G91".toList = none := (find_none_iff (by decide)).2 h91
  unfold promote_G90_G91
  dsimp only
  rw [hn, hm]

theorem promote_at_front {s pat : Str} (h : occurs_at s pat 0) :
    pat ++ (s.take 0 ++ s.drop (0 + pat.length)) = s := by
  have hp : pat <+: s := List.isPrefixOf_iff_prefix.1 (by simpa [occurs_at] using h)
  simpa using List.prefix_iff_eq_append.1 hp

theorem getElem?_promoted (pat s : Str) (p j : Nat) (hpat : pat.length = 3)
    (hp : p + 3 ≤ s.length) :
    (j < p → (pat ++ (s.take p ++ s.drop (p + 3)))[j + 3]? = s[j]?)
    ∧ (p + 3 ≤ j → (pat ++ (s.take p ++ s.drop (p + 3)))[j]? = s[j]?) := by
  have hlt : (s.take p).length = p := by rw [List.length_take]; omega
  constructor
  · intro hj
    rw [List.getElem?_append_right (by omega), hpat, Nat.add_sub_cancel,
      List.getElem?_append_left (by omega), List.getElem?_take_of_lt hj]
  · intro hj
    rw [List.getElem?_append_right (by omega), hpat,
      List.getElem?_append_right (by omega), hlt, List.getElem?_drop]
    congr 1
    omega

theorem G91_kept {s : Str} {p q : Nat} (h90 : occurs_at s "G90".toList p)
    (h91 : occurs_at s "G91".toList q) :
    (q < p → occurs_at ("G90".toList ++ (s.take p ++ s.drop (p + 3))) "G91".toList (q + 3))
    ∧ (p < q → occurs_at ("G90".toList ++ (s.take p ++ s.drop (p + 3))) "G91".toList q) := by
  have hlen : p + 3 ≤ s.length := by
    rcases occurs_at_length h90 with h | h
    · simpa using h
    · exact absurd h (by decide)
  have a := (occurs_at_three s p 'G' '9' '0').1 h90
  have b := (occurs_at_three s q 'G' '9' '1').1 h91
  have key := fun j => getElem?_promoted "G90".toList s p j rfl hlen
  constructor
  · intro hq
    have hq3 : q + 3 ≤ p := by
      by_contra hcon
      have hcase : p = q + 1 ∨ p = q + 2 := by omega
      rcases hcase with h | h
      · rw [h] at a; rw [a.1] at b; exact absurd b.2.1 (by decide)
      · rw [h] at a; rw [a.1] at b; exact absurd b.2.2 (by decide)
    refine (occurs_at_three _ (q + 3) 'G' '9' '1').2 ⟨?_, ?_, ?_⟩
    · rw [(key q).1 (by omega)]; exact b.1
    · rw [show q + 3 + 1 = (q + 1) + 3 by omega, (key (q + 1)).1 (by omega)]; exact b.2.1
    · rw [show q + 3 + 2 = (q + 2) + 3 by omega, (key (q + 2)).1 (by omega)]; exact b.2.2
  · intro hq
    have hq3 : p + 3 ≤ q := by
      by_contra hcon
      have hcase : q = p + 1 ∨ q = p + 2 := by omega
      rcases hcase with h | h
      · rw [h] at b; rw [b.1] at a; exact absurd a.2.1 (by decide)
      · rw [h] at b; rw [b.1] at a; exact absurd a.2.2 (by decide)
    refine (occurs_at_three _ q 'G' '9' '1').2 ⟨?_, ?_, ?_⟩
    · rw [(key q).2 (by omega)]; exact b.1
    · rw [(key (q + 1)).2 (by omega)]; exact b.2.1
    · rw [(key (q + 2)).2 (by omega)]; exact b.2.2

/-- C16. Distance-mode promotion (lines 92-108): a line in which `G90` occurs becomes
`G90` followed by the line without the first occurrence of `G90`; otherwise a line in
which `G91` occurs becomes `G91` followed by the line without its first occurrence;
otherwise the line is unchanged. When `G90` is promoted every `G91` of the line is still
there (three places further when it stood before the `G90`, at the same index when it
stood after it); the result has the length of the input; a line that begins with the
promoted token is unchanged. The normalizer applies the promotion to the lines whose
first character is `G` and to no other line. -/
theorem C16_promotion (s : Str) :
    (∀ p, first_occurrence s "G90".toList p →
      promote_G90_G91 s = "G90".toList ++ (s.take p ++ s.drop (p + 3)))
    ∧ (¬ contains_token s "G90".toList → ∀ p, first_occurrence s "G91".toList p →
      promote_G90_G91 s = "G91".toList ++ (s.take p ++ s.drop (p + 3)))
    ∧ (¬ contains_token s "G90".toList → ¬ contains_token s "G91".toList →
      promote_G90_G91 s = s)
    ∧ (∀ p q, first_occurrence s "G90".toList p → occurs_at s "G91".toList q →
      (q < p → occurs_at (promote_G90_G91 s) "G91".toList (q + 3))
      ∧ (p < q → occurs_at (promote_G90_G91 s) "G91".toList q))
    ∧ (promote_G90_G91 s).length = s.length
    ∧ (occurs_at s "G90".toList 0 → promote_G90_G91 s = s)
    ∧ (¬ contains_token s "G90".toList → occurs_at s "G91".toList 0 →
      promote_G90_G91 s = s)
    ∧ normalize 'G' s = remove_comments (promote_G90_G91 s)
    ∧ (∀ c, c ≠ 'G' →
      normalize c s = remove_comments (if c = 'N' then strip_line_number s else s))
    ∧ promote_G90_G91 "G1X5G91G90".toList = "G90G1X5G91".toList
    ∧ promote_G90_G91 "G1G91X5".toList = "G91G1X5".toList
    ∧ promote_G90_G91 "G1X5".toList = "G1X5".toList := by
  refine ⟨fun p h => promote_of_G90 h, fun h90 p h => promote_of_G91 h90 h,
    promote_of_none, ?_, promote_G90_G91_length s, ?_, ?_, ?_, ?_, by decide, by decide,
    by decide⟩
  · intro p q hp hq
    rw [promote_of_G90 hp]
    exact G91_kept hp.1 hq
  · intro h
    have hf : first_occurrence s "G90".toList 0 := ⟨h, fun q hq => absurd hq (by omega)⟩
    rw [promote_of_G90 hf]
    exact promote_at_front h
  · intro h90 h
    have hf : first_occurrence s "G91".toList 0 := ⟨h, fun q hq => absurd hq (by omega)⟩
    rw [promote_of_G91 h90 hf]
    exact promote_at_front h
  · simp [normalize]
  · intro c hc
    simp [normalize, hc]

/-! ## Comments, line numbers and blank lines -/

theorem remove_comments_no_opener (s : Str) :
    no_index_from (remove_comments s) ";(".toList 0 := by
  unfold remove_comments
  cases h : find_first_of s ";(".toList 0 with
  | none => exact find_first_of_none_iff.1 h
  | some k =>
    obtain ⟨-, -, hmin⟩ := find_first_of_some_iff.1 h
    intro q hq _ hhold
    have hqk : q < k := by
      simp only [substr_to, List.length_take] at hq
      omega
    apply hmin q hqk (Nat.zero_le q)
    obtain ⟨c, hc, hq'⟩ := hhold
    refine ⟨c, hc, ?_⟩
    simp only [substr_to] at hq'
    rwa [List.getElem?_take_of_lt hqk] at hq'

theorem remove_comments_of_no_opener {s : Str} (h : no_index_from s ";(".toList 0) :
    remove_comments s = s := by
  unfold remove_comments
  rw [find_first_of_none_iff.2 h]

/-- C14 at the failing input. The normalized line never holds `;` or `(`, but the G90/G91
promotion (lines 92-108) runs before the comment is cut (lines 110-114): `G1X1;G90` and
`G1X1` agree before the comment opener, yet the first is normalized to `G90G1X1` and
split into `G90` and `G1X1`, so the `G90` of the comment is handed to the executor,
while the second is normalized to `G1X1`. -/
theorem C14_comment_G90_is_promoted :
    (∀ c s, no_index_from (normalize c s) ";(".toList 0)
    ∧ find_first_of "G1X1;G90".toList ";(".toList 0 = some 4
    ∧ "G1X1;G90".toList.take 4 = "G1X1".toList
    ∧ normalize 'G' "G1X1;G90".toList = "G90G1X1".toList
    ∧ normalize 'G' "G1X1".toList = "G1X1".toList
    ∧ split_commands 20 (normalize 'G' "G1X1;G90".toList)
        = some ["G90".toList, "G1X1".toList]
    ∧ split_commands 20 (normalize 'G' "G1X1".toList) = some ["G1X1".toList]
    ∧ (∃ st', on_console_line_received (env_ok false) 20 "G1X1;G90".toList (state0 0 false)
          = some st'
        ∧ st'.sent = [⟨parse_Gcode "G90".toList false, false, false⟩,
                      ⟨parse_Gcode "G1X1".toList false, false, false⟩])
    ∧ (∃ st', on_console_line_received (env_ok false) 20 "G1X1".toList (state0 0 false)
          = some st'
        ∧ st'.sent = [⟨parse_Gcode "G1X1".toList false, false, false⟩]) :=
  ⟨fun _ _ => remove_comments_no_opener _, by decide, by decide, by decide, by decide,
    by decide, by decide, ⟨_, rfl, rfl⟩, ⟨_, rfl, rfl⟩⟩

theorem ltrim_of_head {s : Str} {c : Char} (h : s.head? = some c) (hc : isspace c = false) :
    ltrim s = s := by
  cases s with
  | nil => simp at h
  | cons a as =>
    simp at h
    subst h
    unfold ltrim
    rw [List.dropWhile_cons_of_neg (by simp [hc])]

theorem try_again_N (env : Env σ) (fuel : Nat) (l : Str) (st : State σ) :
    try_again env (fuel + 1) ('N' :: l) st
      = loop env fuel (normalize 'N' ('N' :: l)) none st := by
  simp [try_again, first_char_of, islower]

/-- C13 at the failing inputs. A line that starts with `N` and holds nothing but
characters of the line-number run is cleared (line 88) and the loop is not entered: the
call returns with no reply written at all (and nothing handed to the executor). So it is
for `N10`. -/
theorem C13_line_number_only_gets_no_reply (env : Env σ) (fuel : Nat) (st : State σ) :
    (∀ l : Str, (∀ c ∈ l, c ∈ "N0123456789.,- ".toList) →
      on_console_line_received env (fuel + 2) ('N' :: l) st = some st)
    ∧ (∃ st', on_console_line_received (env_ok false) 20 "N10".toList (state0 0 false)
          = some st' ∧ st'.out = [] ∧ st'.sent = []) := by
  refine ⟨fun l hl => ?_, ⟨_, rfl, rfl, rfl⟩⟩
  have hne : ('N' :: l).isEmpty = false := rfl
  unfold on_console_line_received
  simp only [hne, Bool.false_eq_true, if_false]
  rw [ltrim_of_head (s := 'N' :: l) (c := 'N') rfl (by decide), try_again_N]
  have hstrip : strip_line_number ('N' :: l) = [] := by
    unfold strip_line_number find_first_not_of
    have : findFrom (fun c => !"N0123456789.,- ".toList.contains c) ('N' :: l) 0 = none := by
      rw [findFrom_none]
      intro c hc
      rcases List.mem_cons.1 hc with h | h
      · subst h; decide
      · have hcont : "N0123456789.,- ".toList.contains c = true := by
          simpa using hl c h
        show (!"N0123456789.,- ".toList.contains c) = false
        rw [hcont]
        rfl
    rw [this]
  have hnorm : normalize 'N' ('N' :: l) = [] := by
    unfold normalize
    simp only [if_true, hstrip]
    rfl
  rw [hnorm]
  exact loop_nil env fuel none st

/-- C12 fails as stated: a line made of one blank gets the one reply
`ok - ignore: []\n`, not `ok\r\n`. -/
theorem C12_counterexample :
    ∃ st', on_console_line_received (env_ok false) 20 " ".toList (state0 0 false) = some st'
      ∧ st'.out = ["ok - ignore: []\n".toList]
      ∧ st'.out ≠ ["ok\r\n".toList] :=
  ⟨_, rfl, rfl, by decide⟩

/-- C12, amended. The empty line gets exactly the one reply `ok\r\n`; a non-empty line
made of whitespace only is empty after `ltrim` and gets exactly the one reply
`ok - ignore: []\n`. In both cases nothing is handed to the executor and
`modal_group_1` and the halt flag are as before. -/
theorem C12_blank_lines (env : Env σ) (fuel : Nat) (l : Str) (st : State σ)
    (hws : ∀ c ∈ l, isspace c = true) :
    (l = [] →
      ∃ st', on_console_line_received env fuel l st = some st'
        ∧ st'.out = st.out ++ ["ok\r\n".toList] ∧ st'.sent = st.sent
        ∧ st'.modal_group_1 = st.modal_group_1 ∧ st'.halted = st.halted)
    ∧ (l ≠ [] →
      ∃ st', on_console_line_received env (fuel + 1) l st = some st'
        ∧ st'.out = st.out ++ ["ok - ignore: []\n".toList] ∧ st'.sent = st.sent
        ∧ st'.modal_group_1 = st.modal_group_1 ∧ st'.halted = st.halted) := by
  constructor
  · intro h
    subst h
    exact ⟨_, rfl, rfl, rfl, rfl, rfl⟩
  · intro h
    have hne : l.isEmpty = false := by
      cases l with
      | nil => exact absurd rfl h
      | cons a as => rfl
    have htrim : ltrim l = [] := List.dropWhile_eq_nil_iff.2 hws
    refine ⟨printf st "ok - ignore: []\n".toList, ?_, rfl, rfl, rfl, rfl⟩
    unfold on_console_line_received
    simp only [hne, Bool.false_eq_true, if_false, htrim]
    simp [try_again, first_char_of, islower, find_first_of, findFrom]

/-- Witness of the amended C12: a blank and a tab. -/
theorem C12_blank_lines_witness :
    ∃ st', on_console_line_received (env_ok false) (3 + 1) " \t".toList (state0 2 false)
        = some st'
      ∧ st'.out = (state0 2 false).out ++ ["ok - ignore: []\n".toList]
      ∧ st'.sent = (state0 2 false).sent
      ∧ st'.modal_group_1 = (state0 2 false).modal_group_1
      ∧ st'.halted = (state0 2 false).halted :=
  (C12_blank_lines (env_ok false) 3 " \t".toList (state0 2 false) (by decide)).2 (by decide)

/-! ## `modal_group_1` -/

theorem halt_gate_ret_modal {env : Env σ} {gc : Gcode} {st st1 : State σ}
    (h : halt_gate env gc st = .ret st1) : st1.modal_group_1 = st.modal_group_1 := by
  unfold halt_gate at h
  split_ifs at h <;> (simp only [Step.ret.injEq] at h; subst h; rfl)

theorem halt_gate_cont_eq {env : Env σ} {gc : Gcode} {st st1 : State σ}
    (h : halt_gate env gc st = .cont st1) : st1 = st := by
  unfold halt_gate at h
  split_ifs at h <;> (simp only [Step.cont.injEq] at h; exact h.symm)

theorem resolve_G53_ret_modal {env : Env σ} {gc : Gcode} {rest : Str} {st st1 : State σ}
    (h : resolve_G53 env gc rest st = .ret st1) : st1.modal_group_1 = st.modal_group_1 := by
  unfold resolve_G53 at h
  by_cases hg : gc.has_g = true
  · rw [if_pos hg] at h
    by_cases h53 : gc.g = 53
    · rw [if_pos h53] at h
      by_cases he : rest.isEmpty = true
      · rw [if_pos he] at h
        by_cases hm : st.modal_group_1 > 3
        · rw [if_pos hm] at h
          simp only [Step.ret.injEq] at h
          subst h; rfl
        · rw [if_neg hm] at h
          dsimp only at h
          split_ifs at h
      · rw [if_neg he] at h
        dsimp only at h
        by_cases hb : (!(env.new_Gcode rest true).has_g
            || decide ((env.new_Gcode rest true).g > 1)) = true
        · rw [if_pos hb] at h
          simp only [Step.ret.injEq] at h
          subst h; rfl
        · rw [if_neg hb] at h
          dsimp only at h
          split_ifs at h
    · rw [if_neg h53] at h
      dsimp only at h
      split_ifs at h
  · rw [if_neg hg] at h
    exact absurd h (by simp)

/-- What the resolver leaves in `modal_group_1` when it lets a command through. -/
theorem resolve_G53_cont_modal {env : Env σ} {gc g : Gcode} {rest pc' : Str}
    {st st2 : State σ} (h : resolve_G53 env gc rest st = .cont (g, pc', st2)) :
    (g.has_g = true ∧ g.g < 4 → st2.modal_group_1 = g.g)
    ∧ (g.has_g = false ∨ 4 ≤ g.g → st2.modal_group_1 = st.modal_group_1)
    ∧ (gc.has_g = true → gc.g = 53 → rest = [] → g = { gc with g := st.modal_group_1 }) := by
  unfold resolve_G53 at h
  by_cases hg : gc.has_g = true
  · rw [if_pos hg] at h
    by_cases h53 : gc.g = 53
    · rw [if_pos h53] at h
      by_cases he : rest.isEmpty = true
      · rw [if_pos he] at h
        by_cases hm : st.modal_group_1 > 3
        · rw [if_pos hm] at h
          exact absurd h (by simp)
        · rw [if_neg hm] at h
          dsimp only at h
          rw [if_pos (show st.modal_group_1 < 4 by omega)] at h
          simp only [Step.cont.injEq, Prod.mk.injEq] at h
          obtain ⟨rfl, rfl, rfl⟩ := h
          exact ⟨fun _ => rfl, fun _ => rfl, fun _ _ _ => rfl⟩
      · rw [if_neg he] at h
        dsimp only at h
        by_cases hb : (!(env.new_Gcode rest true).has_g
            || decide ((env.new_Gcode rest true).g > 1)) = true
        · rw [if_pos hb] at h
          exact absurd h (by simp)
        · rw [if_neg hb] at h
          dsimp only at h
          have hgood : (env.new_Gcode rest true).has_g = true
              ∧ (env.new_Gcode rest true).g ≤ 1 := by
            simp only [Bool.or_eq_true, Bool.not_eq_true', decide_eq_true_eq, not_or,
              Bool.not_eq_false, not_lt] at hb
            exact hb
          rw [if_pos (show (env.new_Gcode rest true).g < 4 by omega)] at h
          simp only [Step.cont.injEq, Prod.mk.injEq] at h
          obtain ⟨rfl, rfl, rfl⟩ := h
          refine ⟨fun _ => rfl, fun hh => ?_, fun _ _ hr => ?_⟩
          · rcases hh with hh | hh
            · rw [hgood.1] at hh; exact absurd hh (by simp)
            · omega
          · rw [hr] at he; exact absurd rfl he
    · rw [if_neg h53] at h
      dsimp only at h
      by_cases hlt : gc.g < 4
      · rw [if_pos hlt] at h
        simp only [Step.cont.injEq, Prod.mk.injEq] at h
        obtain ⟨rfl, rfl, rfl⟩ := h
        refine ⟨fun _ => rfl, fun hh => ?_, fun _ h5 _ => absurd h5 h53⟩
        rcases hh with hh | hh
        · rw [hg] at hh; exact absurd hh (by simp)
        · omega
      · rw [if_neg hlt] at h
        simp only [Step.cont.injEq, Prod.mk.injEq] at h
        obtain ⟨rfl, rfl, rfl⟩ := h
        exact ⟨fun hh => absurd hh.2 hlt, fun _ => rfl, fun _ h5 _ => absurd h5 h53⟩
  · rw [if_neg hg] at h
    simp only [Step.cont.injEq, Prod.mk.injEq] at h
    obtain ⟨rfl, rfl, rfl⟩ := h
    refine ⟨fun hh => absurd hh.1 hg, fun _ => rfl, fun h1 _ _ => absurd h1 hg⟩

theorem loop_body_cont_inv {env : Env σ} {pc pc' : Str} {cp cp' : Option Nat}
    {st st1 : State σ} (h : loop_body env pc cp st = .cont (pc', cp', st1)) :
    ∃ g st2, resolve_G53 env (pass_gcode env pc cp st) (pass_rest pc cp)
          (pass_state env pc cp st) = .cont (g, pc', st2)
      ∧ st1 = dispatch env g pc' st2 ∧ cp' = next_cmd_pos pc cp
      ∧ halt_gate env (pass_gcode env pc cp st) (pass_state env pc cp st)
          = .cont (pass_state env pc cp st) := by
  rw [loop_body_eq] at h
  cases hg : halt_gate env (pass_gcode env pc cp st) (pass_state env pc cp st) with
  | ret s1 => rw [hg] at h; exact absurd h (by simp)
  | cont s1 =>
    have hs1 := halt_gate_cont_eq hg
    subst hs1
    rw [hg] at h
    dsimp only at h
    cases hr : resolve_G53 env (pass_gcode env pc cp st) (pass_rest pc cp)
        (pass_state env pc cp st) with
    | ret s2 => rw [hr] at h; exact absurd h (by simp)
    | cont a =>
      obtain ⟨g, p', s2⟩ := a
      rw [hr] at h
      simp only [Step.cont.injEq, Prod.mk.injEq] at h
      obtain ⟨rfl, rfl, rfl⟩ := h
      exact ⟨g, s2, rfl, rfl, rfl, rfl⟩

theorem loop_body_ret_modal {env : Env σ} {pc : Str} {cp : Option Nat}
    {st st1 : State σ} (h : loop_body env pc cp st = .ret st1) :
    st1.modal_group_1 = st.modal_group_1 := by
  rw [loop_body_eq] at h
  cases hg : halt_gate env (pass_gcode env pc cp st) (pass_state env pc cp st) with
  | ret s1 =>
    rw [hg] at h
    simp only [Step.ret.injEq] at h
    subst h
    show s1.modal_group_1 = (pass_state env pc cp st).modal_group_1
    exact halt_gate_ret_modal hg
  | cont s1 =>
    have hs1 := halt_gate_cont_eq hg
    subst hs1
    rw [hg] at h
    dsimp only at h
    cases hr : resolve_G53 env (pass_gcode env pc cp st) (pass_rest pc cp)
        (pass_state env pc cp st) with
    | ret s2 =>
      rw [hr] at h
      simp only [Step.ret.injEq] at h
      subst h
      show s2.modal_group_1 = (pass_state env pc cp st).modal_group_1
      exact resolve_G53_ret_modal hr
    | cont a =>
      obtain ⟨g, p', s2⟩ := a
      rw [hr] at h
      exact absurd h (by simp)

/-- C18. ModalContext update: when a pass of the loop hands a command to the executor
(it got past the halt gate and the G53 resolver), then `modal_group_1` is the G-code of
the command handed over if that command has a G-code `< 4`, and is as before the pass if
the command has no G-code or a G-code `>= 4`; the executor call does not change it. For a
G53 with nothing after it, the G-code handed over is the value `modal_group_1` had
before the pass. -/
theorem C18_modal_update (env : Env σ) (pc pc' : Str) (cp cp' : Option Nat)
    (st st1 : State σ) (h : loop_body env pc cp st = .cont (pc', cp', st1)) :
    ∃ e : Sent, st1.sent = st.sent ++ [e]
      ∧ (e.gcode.has_g = true ∧ e.gcode.g < 4 → st1.modal_group_1 = e.gcode.g)
      ∧ (e.gcode.has_g = false ∨ 4 ≤ e.gcode.g → st1.modal_group_1 = st.modal_group_1)
      ∧ ((pass_gcode env pc cp st).has_g = true → (pass_gcode env pc cp st).g = 53 →
          pass_rest pc cp = [] → e.gcode.g = st.modal_group_1) := by
  obtain ⟨g, st2, hr, rfl, -, -⟩ := loop_body_cont_inv h
  obtain ⟨h1, h2, h3⟩ := resolve_G53_cont_modal hr
  rcases resolve_G53_cases env (pass_gcode env pc cp st) (pass_rest pc cp)
    (pass_state env pc cp st) with ⟨s, hs, -⟩ | ⟨g', p', s2, hs, hsent, -, -, -⟩
  · rw [hs] at hr; exact absurd hr (by simp)
  · rw [hs] at hr
    simp only [Step.cont.injEq, Prod.mk.injEq] at hr
    obtain ⟨rfl, rfl, rfl⟩ := hr
    refine ⟨⟨g', s2.halted, s2.next_command_is_MCS⟩, ?_, ?_, ?_, ?_⟩
    · rw [dispatch_sent, hsent]; rfl
    · intro hh; rw [dispatch_modal]; exact h1 hh
    · intro hh; rw [dispatch_modal]; exact h2 hh
    · intro ha hb hc
      rw [h3 ha hb hc]
      rfl

/-- Witness of C18: the pass on `G2X1M3` from `modal_group_1 = 0`. -/
theorem C18_modal_update_witness :
    ∃ e : Sent,
      (dispatch (env_ok false) (parse_Gcode "G2X1".toList false) "M3".toList
        { state0 0 false with modal_group_1 := 2 }).sent = (state0 0 false).sent ++ [e]
      ∧ (e.gcode.has_g = true ∧ e.gcode.g < 4 →
          (dispatch (env_ok false) (parse_Gcode "G2X1".toList false) "M3".toList
            { state0 0 false with modal_group_1 := 2 }).modal_group_1 = e.gcode.g)
      ∧ (e.gcode.has_g = false ∨ 4 ≤ e.gcode.g →
          (dispatch (env_ok false) (parse_Gcode "G2X1".toList false) "M3".toList
            { state0 0 false with modal_group_1 := 2 }).modal_group_1
              = (state0 0 false).modal_group_1)
      ∧ ((pass_gcode (env_ok false) "G2X1M3".toList none (state0 0 false)).has_g = true →
          (pass_gcode (env_ok false) "G2X1M3".toList none (state0 0 false)).g = 53 →
          pass_rest "G2X1M3".toList none = [] → e.gcode.g = (state0 0 false).modal_group_1) :=
  C18_modal_update (env_ok false) "G2X1M3".toList "M3".toList none (some 4)
    (state0 0 false)
    (dispatch (env_ok false) (parse_Gcode "G2X1".toList false) "M3".toList
      { state0 0 false with modal_group_1 := 2 }) rfl

theorem loop_body_cont_modal_le {env : Env σ} {pc pc' : Str} {cp cp' : Option Nat}
    {st st1 : State σ} (hst : st.modal_group_1 ≤ 3)
    (h : loop_body env pc cp st = .cont (pc', cp', st1)) : st1.modal_group_1 ≤ 3 := by
  obtain ⟨g, st2, hr, rfl, -, -⟩ := loop_body_cont_inv h
  obtain ⟨h1, h2, -⟩ := resolve_G53_cont_modal hr
  rw [dispatch_modal]
  by_cases hg : g.has_g = true ∧ g.g < 4
  · rw [h1 hg]; omega
  · have : g.has_g = false ∨ 4 ≤ g.g := by
      by_cases hh : g.has_g = true
      · right
        by_contra hcon
        exact hg ⟨hh, by omega⟩
      · left
        simpa using hh
    rw [h2 this]
    exact hst

theorem loop_modal_le (env : Env σ) (fuel : Nat) (pc : Str) (cp : Option Nat)
    (st st' : State σ) (hst : st.modal_group_1 ≤ 3)
    (h : loop env fuel pc cp st = some st') : st'.modal_group_1 ≤ 3 := by
  induction fuel generalizing pc cp st with
  | zero => simp [loop] at h
  | succ fuel ih =>
    by_cases hpc : pc = []
    · subst hpc
      rw [loop_nil] at h
      simp only [Option.some.injEq] at h
      subst h
      exact hst
    · rw [loop_succ env fuel pc cp st hpc] at h
      cases hb : loop_body env pc cp st with
      | ret s1 =>
        rw [hb] at h
        simp only [Option.some.injEq] at h
        subst h
        rw [loop_body_ret_modal hb]
        exact hst
      | cont a =>
        obtain ⟨pc', cp', s1⟩ := a
        rw [hb] at h
        exact ih pc' cp' s1 (loop_body_cont_modal_le hst hb) h

/-- The three ways through the code after the label `try_again`: a `return` without the
loop, the command branch, or the jump back with a line that starts with `G`. -/
theorem try_again_cases (env : Env σ) (pc : Str) (st : State σ) :
    (∃ st', st'.modal_group_1 = st.modal_group_1
      ∧ ∀ fuel, try_again env (fuel + 1) pc st = some st')
    ∨ (∃ l : Str, l.length ≤ pc.length
      ∧ ∀ fuel, try_again env (fuel + 1) pc st = loop env fuel l none st)
    ∨ (∃ b : Str, b.length ≤ 4
      ∧ ∀ fuel, try_again env (fuel + 1) pc st
          = try_again env fuel ('G' :: (b ++ pc)) st) := by
  by_cases h1 : first_char_of pc = '$'
  · left
    refine ⟨st, rfl, fun fuel => ?_⟩
    unfold try_again
    dsimp only
    rw [if_pos h1]
  by_cases h2 : islower (first_char_of pc) = true
  · left
    refine ⟨st, rfl, fun fuel => ?_⟩
    unfold try_again
    dsimp only
    rw [if_neg h1, if_pos h2]
  by_cases h3 : first_char_of pc = 'G' ∨ first_char_of pc = 'M' ∨ first_char_of pc = 'T'
      ∨ first_char_of pc = 'S' ∨ first_char_of pc = 'N' ∨ first_char_of pc = '#'
  · right; left
    refine ⟨normalize (first_char_of pc) pc, normalize_length _ _, fun fuel => ?_⟩
    unfold try_again
    dsimp only
    rw [if_neg h1, if_neg h2, if_pos h3]
  by_cases h4 : first_char_of pc = ';' ∨ first_char_of pc = '(' ∨ first_char_of pc = '\n'
      ∨ first_char_of pc = '\r'
  · left
    refine ⟨printf st "ok\n".toList, rfl, fun fuel => ?_⟩
    unfold try_again
    dsimp only
    rw [if_neg h1, if_neg h2, if_neg h3, if_pos h4]
  by_cases h5 : find_first_of pc "XYZAF".toList 0 = some 0
      ∨ (first_char_of pc = ' ' ∧ find_first_of pc "XYZAF".toList 0 ≠ none)
  · right; right
    obtain ⟨b, hb, hblen⟩ : ∃ b, (if pc.getD ((find_first_of pc "XYZAF".toList 0).getD 0)
        (Char.ofNat 0) = 'F' then "G1 ".toList else snprintf_G st.modal_group_1)
          = 'G' :: b ∧ b.length ≤ 4 := by
      split_ifs
      · exact ⟨" 1".toList.reverse, rfl, by decide⟩
      · exact snprintf_G_cons _
    refine ⟨b, hblen, fun fuel => ?_⟩
    rw [← List.cons_append, ← hb]
    conv_lhs => unfold try_again
    dsimp only
    rw [if_neg h1, if_neg h2, if_neg h3, if_neg h4, if_pos h5]
  · left
    refine ⟨printf st ("ok - ignore: [".toList ++ pc ++ "]\n".toList), rfl, fun fuel => ?_⟩
    unfold try_again
    dsimp only
    rw [if_neg h1, if_neg h2, if_neg h3, if_neg h4, if_neg h5]

theorem try_again_modal_le (env : Env σ) (fuel : Nat) (pc : Str) (st st' : State σ)
    (hst : st.modal_group_1 ≤ 3) (h : try_again env fuel pc st = some st') :
    st'.modal_group_1 ≤ 3 := by
  induction fuel generalizing pc with
  | zero => simp [try_again] at h
  | succ fuel ih =>
    rcases try_again_cases env pc st with ⟨s1, hm, h1⟩ | ⟨l, -, h1⟩ | ⟨b, -, h1⟩
    · rw [h1 fuel] at h
      simp only [Option.some.injEq] at h
      subst h
      omega
    · rw [h1 fuel] at h
      exact loop_modal_le env fuel l none st st' hst h
    · rw [h1 fuel] at h
      exact ih _ h

theorem on_console_line_received_modal_le (env : Env σ) (fuel : Nat) (message : Str)
    (st st' : State σ) (hst : st.modal_group_1 ≤ 3)
    (h : on_console_line_received env fuel message st = some st') :
    st'.modal_group_1 ≤ 3 := by
  unfold on_console_line_received at h
  dsimp only at h
  split_ifs at h
  · simp only [Option.some.injEq] at h
    subst h
    exact hst
  · exact try_again_modal_le env fuel _ st st' hst h

theorem try_again_terminates (env : Env σ) (fuel : Nat) (pc : Str) (st : State σ)
    (hfuel : pc.length + 8 ≤ fuel) : ∃ st', try_again env fuel pc st = some st' := by
  obtain ⟨f, rfl⟩ : ∃ f, fuel = f + 2 := ⟨fuel - 2, by omega⟩
  rcases try_again_cases env pc st with ⟨s1, -, h1⟩ | ⟨l, hl, h1⟩ | ⟨b, hb, h1⟩
  · exact ⟨s1, h1 (f + 1)⟩
  · rw [h1 (f + 1)]
    obtain ⟨st', -, h, -⟩ := loop_terminates env (f + 1) l none st (Or.inr (Or.inl rfl))
      (by omega)
    exact ⟨st', h⟩
  · rw [h1 (f + 1), try_again_command]
    have hlen : (normalize 'G' ('G' :: (b ++ pc))).length < f := by
      have := normalize_length 'G' ('G' :: (b ++ pc))
      simp only [List.length_cons, List.length_append] at this
      omega
    obtain ⟨st', -, h, -⟩ := loop_terminates env f _ none st (Or.inr (Or.inl rfl)) hlen
    exact ⟨st', h⟩

theorem on_console_line_received_terminates (env : Env σ) (fuel : Nat) (message : Str)
    (st : State σ) (hfuel : message.length + 8 ≤ fuel) :
    ∃ st', on_console_line_received env fuel message st = some st' := by
  unfold on_console_line_received
  dsimp only
  split_ifs
  · exact ⟨_, rfl⟩
  · exact try_again_terminates env fuel _ st (by have := ltrim_length message; omega)

theorem reachable_modal_le (env : Env σ) (st : State σ) (h : Reachable env st) :
    st.modal_group_1 ≤ 3 := by
  induction h with
  | init st => exact Nat.zero_le 3
  | line st st' fuel message _ hrun ih =>
    exact on_console_line_received_modal_le env fuel message st st' ih hrun
  | outside st halted mcs ext _ ih => exact ih

theorem snprintf_G_le_3 (n : Nat) (h : n ≤ 3) :
    snprintf_G n ∈ ["G0 ".toList, "G1 ".toList, "G2 ".toList, "G3 ".toList] := by
  interval_cases n <;> decide

/-- C20. ModalContext range invariant: `init` sets `modal_group_1` to 0; a line processed
from a state with `modal_group_1 <= 3` ends, and ends in a state with
`modal_group_1 <= 3`, whatever the line, the decoder and the executor; so does every pass
of the loop. Hence `modal_group_1 <= 3` in every reachable state; from such a state a G53
with nothing after it is never rejected for `modal_group_1 > 3`, and the synthesizer
inserts one of `G0 `, `G1 `, `G2 `, `G3 `. -/
theorem C20_modal_range (env : Env σ) :
    (∀ st : State σ, (init st).modal_group_1 = 0)
    ∧ (∀ fuel message (st st' : State σ), st.modal_group_1 ≤ 3 →
        on_console_line_received env fuel message st = some st' → st'.modal_group_1 ≤ 3)
    ∧ (∀ fuel message (st : State σ), st.modal_group_1 ≤ 3 → message.length + 8 ≤ fuel →
        ∃ st', on_console_line_received env fuel message st = some st'
          ∧ st'.modal_group_1 ≤ 3)
    ∧ (∀ pc pc' cp cp' (st st1 : State σ), st.modal_group_1 ≤ 3 →
        loop_body env pc cp st = .cont (pc', cp', st1) → st1.modal_group_1 ≤ 3)
    ∧ (∀ st, Reachable env st → st.modal_group_1 ≤ 3)
    ∧ (∀ (st : State σ) gc, st.modal_group_1 ≤ 3 → gc.has_g = true → gc.g = 53 →
        resolve_G53 env gc [] st
          = .cont ({ gc with g := st.modal_group_1 }, [],
              { st with next_command_is_MCS := true }))
    ∧ (∀ st : State σ, st.modal_group_1 ≤ 3 →
        snprintf_G st.modal_group_1
          ∈ ["G0 ".toList, "G1 ".toList, "G2 ".toList, "G3 ".toList]) := by
  refine ⟨fun _ => rfl, on_console_line_received_modal_le env, ?_,
    fun pc pc' cp cp' st st1 hst h => loop_body_cont_modal_le hst h,
    reachable_modal_le env, ?_, fun st h => snprintf_G_le_3 _ h⟩
  · intro fuel message st hst hfuel
    obtain ⟨st', h⟩ := on_console_line_received_terminates env fuel message st hfuel
    exact ⟨st', h, on_console_line_received_modal_le env fuel message st st' hst h⟩
  · intro st gc hst hg h53
    have h1 : ¬ st.modal_group_1 > 3 := by omega
    have h2 : st.modal_group_1 < 4 := by omega
    simp [resolve_G53, hg, h53, h1, h2]

/-! ## Termination -/

theorem split_loop_count (fuel : Nat) (pc : Str) (cp : Option Nat) (cmds : List Str)
    (hin : loop_entry pc cp) (h : split_loop fuel pc cp = some cmds) :
    2 * cmds.length ≤ pc.length + 1 := by
  induction fuel generalizing pc cp cmds with
  | zero => simp [split_loop] at h
  | succ fuel ih =>
    unfold split_loop at h
    by_cases hlen : pc.length > 0
    · simp only [hlen, if_true] at h
      cases hnext : next_cmd_pos pc cp with
      | none =>
        rw [hnext] at h
        simp only [cut] at h
        cases fuel with
        | zero => simp [split_loop] at h
        | succ f =>
          simp [split_loop] at h
          subst h
          simp only [List.length_singleton]
          omega
      | some p =>
        rw [hnext] at h
        simp only [cut, substr_to, substr_from] at h
        obtain ⟨hp2, hp⟩ := next_cmd_pos_some hin hnext
        have hplt := holds_one_of_lt hp
        cases hrec : split_loop fuel (pc.drop p) (some p) with
        | none => rw [hrec] at h; simp at h
        | some rest =>
          rw [hrec] at h
          simp only [Option.some.injEq] at h
          subst h
          have := ih (pc.drop p) (some p) rest (Or.inr (first_char_of_drop hp)) hrec
          rw [List.length_drop] at this
          simp only [List.length_cons]
          omega
    · simp only [hlen, if_false, Option.some.injEq] at h
      subst h
      simp

/-- C19. Processing a line always ends (given `length + 8` units of fuel, whatever the
decoder and the executor). The code after `try_again` either returns, or enters the
command branch, or jumps back once with a line that starts with `G`, which enters the
command branch. In the splitting loop every boundary is an index `>= 2` inside the
remaining line, so a pass leaves at least two characters fewer, or nothing; and a line
of length `L` is split into at most `(L + 1) / 2` commands. -/
theorem C19_termination (env : Env σ) :
    (∀ fuel message (st : State σ), message.length + 8 ≤ fuel →
        ∃ st', on_console_line_received env fuel message st = some st')
    ∧ (∀ pc (st : State σ),
        (∃ st', ∀ fuel, try_again env (fuel + 1) pc st = some st')
        ∨ (∃ l : Str, l.length ≤ pc.length
            ∧ ∀ fuel, try_again env (fuel + 1) pc st = loop env fuel l none st)
        ∨ (∃ b : Str, b.length ≤ 4
            ∧ ∀ fuel, try_again env (fuel + 2) pc st
                = loop env fuel (normalize 'G' ('G' :: (b ++ pc))) none st))
    ∧ (∀ pc cp p, loop_entry pc cp → next_cmd_pos pc cp = some p →
        2 ≤ p ∧ p < pc.length ∧ pass_rest pc cp = pc.drop p
          ∧ (pass_rest pc cp).length + 2 ≤ pc.length)
    ∧ (∀ pc cp, next_cmd_pos pc cp = none → pass_rest pc cp = [])
    ∧ (∀ fuel (s : Str), s.length < fuel →
        ∃ cmds, split_commands fuel s = some cmds ∧ 2 * cmds.length ≤ s.length + 1
          ∧ cmds.length ≤ (s.length + 1) / 2) := by
  refine ⟨fun fuel message st h => on_console_line_received_terminates env fuel message st h,
    ?_, ?_, ?_, ?_⟩
  · intro pc st
    rcases try_again_cases env pc st with ⟨s1, -, h1⟩ | ⟨l, hl, h1⟩ | ⟨b, hb, h1⟩
    · exact Or.inl ⟨s1, h1⟩
    · exact Or.inr (Or.inl ⟨l, hl, h1⟩)
    · refine Or.inr (Or.inr ⟨b, hb, fun fuel => ?_⟩)
      rw [h1 (fuel + 1), try_again_command]
  · intro pc cp p hin hnext
    obtain ⟨hp2, hp⟩ := next_cmd_pos_some hin hnext
    have hplt := holds_one_of_lt hp
    have hrest : pass_rest pc cp = pc.drop p := by
      unfold pass_rest cut
      rw [hnext]
      rfl
    refine ⟨hp2, hplt, hrest, ?_⟩
    rw [hrest, List.length_drop]
    omega
  · intro pc cp hnext
    unfold pass_rest cut
    rw [hnext]
  · intro fuel s hfuel
    obtain ⟨cmds, h, -, -⟩ := split_loop_covers fuel s none (Or.inl rfl) hfuel
    have hc := split_loop_count fuel s none cmds (Or.inl rfl) h
    exact ⟨cmds, h, hc, by omega⟩

/-! ## The ok replies of a line -/

theorem split_loop_succ_inv {fuel : Nat} {pc : Str} {cp : Option Nat} {cmds : List Str}
    (hpc : pc ≠ []) (h : split_loop (fuel + 1) pc cp = some cmds) :
    ∃ r, split_loop fuel (pass_rest pc cp) (next_cmd_pos pc cp) = some r
      ∧ cmds = pass_command pc cp :: r := by
  have hlen : pc.length > 0 := List.length_pos.2 hpc
  unfold split_loop at h
  simp only [hlen, if_true] at h
  cases hrec : split_loop fuel (pass_rest pc cp) (next_cmd_pos pc cp) with
  | none =>
    unfold pass_rest at hrec
    rw [hrec] at h
    simp at h
  | some r =>
    unfold pass_rest at hrec
    rw [hrec] at h
    simp only [Option.some.injEq] at h
    exact ⟨r, rfl, h.symm⟩

theorem split_loop_nil_iff {fuel : Nat} {pc : Str} {cp : Option Nat} {cmds : List Str}
    (h : split_loop fuel pc cp = some cmds) : cmds = [] ↔ pc = [] := by
  cases fuel with
  | zero => simp [split_loop] at h
  | succ f =>
    by_cases hpc : pc = []
    · subst hpc
      simp [split_loop] at h
      simp [h]
    · obtain ⟨r, -, hc⟩ := split_loop_succ_inv hpc h
      simp [hc, hpc]

theorem pass_gcode_decodings (env : Env σ) (pc : Str) (cp : Option Nat) (st : State σ) :
    decodings env (pass_command pc cp) (pass_gcode env pc cp st) := by
  unfold pass_gcode decode decodings
  dsimp only
  by_cases h : first_char_of pc = '#'
  · right
    simp only [h, if_true]
    exact ⟨_, _, rfl⟩
  · left
    simp only [h, if_false]

theorem pass_rest_loop_entry {pc : Str} {cp : Option Nat} (hin : loop_entry pc cp)
    (hpc : pc ≠ []) :
    loop_entry (pass_rest pc cp) (next_cmd_pos pc cp)
      ∧ (pass_rest pc cp).length < pc.length := by
  have hlen : pc.length > 0 := List.length_pos.2 hpc
  cases hnext : next_cmd_pos pc cp with
  | none =>
    refine ⟨Or.inl rfl, ?_⟩
    unfold pass_rest cut
    rw [hnext]
    simpa using hlen
  | some p =>
    obtain ⟨hp2, hp⟩ := next_cmd_pos_some hin hnext
    have hplt := holds_one_of_lt hp
    have hrest : pass_rest pc cp = pc.drop p := by
      unfold pass_rest cut
      rw [hnext]
      rfl
    rw [hrest]
    refine ⟨Or.inr (first_char_of_drop hp), ?_⟩
    rw [List.length_drop]
    omega

theorem resolve_G53_other (env : Env σ) (gc : Gcode) (rest : Str) (st : State σ)
    (h : ¬ (gc.has_g = true ∧ gc.g = 53)) :
    ∃ st2, resolve_G53 env gc rest st = .cont (gc, rest, st2)
      ∧ st2.halted = st.halted ∧ st2.out = st.out ∧ st2.sent = st.sent := by
  unfold resolve_G53
  by_cases hg : gc.has_g = true
  · have h53 : ¬ gc.g = 53 := fun h5 => h ⟨hg, h5⟩
    rw [if_pos hg, if_neg h53]
    dsimp only
    split_ifs
    · exact ⟨_, rfl, rfl, rfl, rfl⟩
    · exact ⟨_, rfl, rfl, rfl, rfl⟩
  · rw [if_neg hg]
    exact ⟨_, rfl, rfl, rfl, rfl⟩

/-- The replies of a dispatch for which the executor reports no error, no trailing text
and no newline flag: one `ok\r\n`, which the policy `one ok per line` holds back while
something is left of the line. -/
theorem dispatch_ok_out (env : Env σ) (gc : Gcode) (rest : Str) (st : State σ)
    (h1 : (outcome env gc st).is_error = false)
    (h2 : (outcome env gc st).txt_after_ok = [])
    (h3 : (outcome env gc st).add_nl = false) :
    (env.is_ok_per_line = true → rest ≠ [] → (dispatch env gc rest st).out = st.out)
    ∧ (env.is_ok_per_line = true → rest = [] →
        (dispatch env gc rest st).out = st.out ++ ["ok\r\n".toList])
    ∧ (env.is_ok_per_line = false →
        (dispatch env gc rest st).out = st.out ++ ["ok\r\n".toList]) := by
  unfold outcome at h1 h2 h3
  refine ⟨?_, ?_, ?_⟩
  · intro hp hr
    have : rest.isEmpty = false := by
      cases rest with
      | nil => exact absurd rfl hr
      | cons a as => rfl
    simp [dispatch, reply, call_event_ON_GCODE_RECEIVED, printf, h1, h2, h3, hp, this]
  · intro hp hr
    subst hr
    simp [dispatch, reply, call_event_ON_GCODE_RECEIVED, printf, h1, h2, h3, hp]
  · intro hp
    simp [dispatch, reply, call_event_ON_GCODE_RECEIVED, printf, h1, h2, h3, hp]

/-- What `runs_accepted` says of the first pass on a non-empty line. -/
theorem runs_accepted_succ {env : Env σ} {fuel : Nat} {pc : Str} {cp : Option Nat}
    {st : State σ} (hpc : pc ≠ []) (h : runs_accepted env (fuel + 1) pc cp st = true) :
    st.halted = false
    ∧ ∃ st2, resolve_G53 env (pass_gcode env pc cp st) (pass_rest pc cp)
          (pass_state env pc cp st) = .cont (pass_gcode env pc cp st, pass_rest pc cp, st2)
      ∧ st2.out = st.out ∧ st2.sent = st.sent
      ∧ (outcome env (pass_gcode env pc cp st) st2).is_error = false
      ∧ (outcome env (pass_gcode env pc cp st) st2).txt_after_ok = []
      ∧ (outcome env (pass_gcode env pc cp st) st2).add_nl = false
      ∧ runs_accepted env fuel (pass_rest pc cp) (next_cmd_pos pc cp)
          (dispatch env (pass_gcode env pc cp st) (pass_rest pc cp) st2) = true := by
  have hlen : pc.length > 0 := List.length_pos.2 hpc
  unfold runs_accepted at h
  simp only [hlen, if_true, Bool.and_eq_true, Bool.not_eq_true', Bool.and_eq_false_imp,
    beq_iff_eq] at h
  obtain ⟨⟨hh, h53⟩, hm⟩ := h
  have hn53 : ¬ ((pass_gcode env pc cp st).has_g = true ∧ (pass_gcode env pc cp st).g = 53) := by
    rintro ⟨hg, h5⟩
    have := h53 hg
    simp [h5] at this
  obtain ⟨st2, hres, -, ho, hs⟩ := resolve_G53_other env (pass_gcode env pc cp st)
    (pass_rest pc cp) (pass_state env pc cp st) hn53
  rw [hres] at hm
  simp only [Bool.and_eq_true, Bool.not_eq_true', List.isEmpty_iff] at hm
  obtain ⟨⟨⟨e1, e2⟩, e3⟩, e4⟩ := hm
  exact ⟨hh, st2, hres, ho, hs, e1, e2, e3, e4⟩

theorem loop_ok_replies (env : Env σ) (fuel : Nat) (pc : Str) (cp : Option Nat)
    (st : State σ) (cmds : List Str) (hin : loop_entry pc cp) (hfuel : pc.length < fuel)
    (hsplit : split_loop fuel pc cp = some cmds)
    (hrun : runs_accepted env fuel pc cp st = true) :
    ∃ st' new, loop env fuel pc cp st = some st'
      ∧ st'.sent = st.sent ++ new
      ∧ List.Forall₂ (fun (e : Sent) cmd => decodings env cmd e.gcode ∧ e.halted = false)
          new cmds
      ∧ (env.is_ok_per_line = true →
          st'.out = st.out ++ (if pc = [] then [] else ["ok\r\n".toList]))
      ∧ (env.is_ok_per_line = false →
          st'.out = st.out ++ List.replicate cmds.length "ok\r\n".toList) := by
  induction fuel generalizing pc cp st cmds with
  | zero => omega
  | succ fuel ih =>
    by_cases hpc : pc = []
    · subst hpc
      have hc : cmds = [] := (split_loop_nil_iff hsplit).2 rfl
      subst hc
      exact ⟨st, [], loop_nil env fuel cp st, by simp, List.Forall₂.nil,
        fun _ => by simp, fun _ => by simp⟩
    · obtain ⟨r, hr, hc⟩ := split_loop_succ_inv hpc hsplit
      subst hc
      obtain ⟨hentry, hlt⟩ := pass_rest_loop_entry hin hpc
      have hdec := pass_gcode_decodings env pc cp st
      obtain ⟨hnormal, st2, hres, ho2, hs2, e1, e2, e3, hrest⟩ := runs_accepted_succ hpc hrun
      have hn1 : (pass_state env pc cp st).halted = false := hnormal
      have hh2 : st2.halted = false := by
        rcases resolve_G53_cases env (pass_gcode env pc cp st) (pass_rest pc cp)
          (pass_state env pc cp st) with ⟨s, hs, -⟩ | ⟨g', p', s2, hs, -, hhalt, -, -⟩
        · rw [hs] at hres; exact absurd hres (by simp)
        · rw [hs] at hres
          simp only [Step.cont.injEq, Prod.mk.injEq] at hres
          obtain ⟨-, -, rfl⟩ := hres
          rw [hhalt]; exact hn1
      obtain ⟨d3, d4, d5⟩ := dispatch_ok_out env (pass_gcode env pc cp st)
        (pass_rest pc cp) st2 e1 e2 e3
      have d2 := dispatch_sent env (pass_gcode env pc cp st) (pass_rest pc cp) st2
      have hbody : loop_body env pc cp st = .cont (pass_rest pc cp, next_cmd_pos pc cp,
          dispatch env (pass_gcode env pc cp st) (pass_rest pc cp) st2) := by
        rw [loop_body_eq, halt_gate_normal env _ _ hn1]
        dsimp only
        rw [hres]
      obtain ⟨st', new, h1, h2, h3, h5, h6⟩ := ih (pass_rest pc cp) (next_cmd_pos pc cp)
        (dispatch env (pass_gcode env pc cp st) (pass_rest pc cp) st2) r hentry (by omega) hr
        hrest
      refine ⟨st', ⟨pass_gcode env pc cp st, st2.halted, st2.next_command_is_MCS⟩ :: new,
        ?_, ?_, List.Forall₂.cons ⟨hdec, hh2⟩ h3, ?_, ?_⟩
      · rw [loop_succ env fuel pc cp st hpc, hbody]
        exact h1
      · rw [h2, d2, hs2]
        simp
      · intro hp
        rw [h5 hp, if_neg hpc]
        by_cases hrest' : pass_rest pc cp = []
        · rw [d4 hp hrest', ho2, if_pos hrest']
          simp
        · rw [d3 hp hrest', ho2, if_neg hrest']
      · intro hp
        rw [h6 hp, d5 hp, ho2]
        simp [List.replicate_succ]

/-- C11 fails as stated. The machine is in Normal mode when `G0X1G0X2` is received, the
line splits into two commands, none of them G53, and the executor accepts every command
with no trailing text and no newline flag; but the machine is Halted when the first
command returns (a halt from outside the dispatcher), so the second command is stopped
at the halt gate. With one ok per line the only reply is `error:Alarm lock\n`; with an ok
per command the replies are `ok\r\n` and `error:Alarm lock\n`. -/
theorem C11_counterexample :
    split_commands 20 "G0X1G0X2".toList = some ["G0X1".toList, "G0X2".toList]
    ∧ (parse_Gcode "G0X1".toList false).g = 0
    ∧ (parse_Gcode "G0X2".toList false).g = 0
    ∧ (∀ b gc h m e,
        ((env_ok_halting b).on_gcode_received gc h m e).is_error = false
        ∧ ((env_ok_halting b).on_gcode_received gc h m e).txt_after_ok = []
        ∧ ((env_ok_halting b).on_gcode_received gc h m e).add_nl = false)
    ∧ (∃ st', on_console_line_received (env_ok_halting true) 20 "G0X1G0X2".toList
          (state0 0 false) = some st'
        ∧ st'.out = ["error:Alarm lock\n".toList]
        ∧ st'.sent = [⟨parse_Gcode "G0X1".toList false, false, false⟩])
    ∧ (∃ st', on_console_line_received (env_ok_halting false) 20 "G0X1G0X2".toList
          (state0 0 false) = some st'
        ∧ st'.out = ["ok\r\n".toList, "error:Alarm lock\n".toList]
        ∧ st'.sent = [⟨parse_Gcode "G0X1".toList false, false, false⟩]) :=
  ⟨by decide, by decide, by decide, fun _ _ _ _ _ => ⟨rfl, rfl, rfl⟩, ⟨_, rfl, rfl, rfl⟩,
    ⟨_, rfl, rfl, rfl⟩⟩

/-- C11, amended. One ok per line: when the loop splits a non-empty line into the
commands `cmds` and, along the run, the machine is in Normal mode each time a command is
decoded, no command decodes to G53, and the executor reports no error, no trailing text
and no newline flag for each command it is handed (`runs_accepted`), then the loop ends,
the commands are handed to the executor one by one in order, in Normal mode, and the
writes are exactly one `ok\r\n` with the policy `one ok per line` on and exactly one
`ok\r\n` per command with the policy off. With the policy on, the dispatch of an
accepted command writes nothing while something is left of the line and writes the
`ok\r\n` when nothing is left, that is after the last command was handed over. -/
theorem C11_one_ok_per_line (env : Env σ) (fuel : Nat) (pc : Str) (cp : Option Nat)
    (st : State σ) (cmds : List Str) (hpc : pc ≠ []) (hin : loop_entry pc cp)
    (hfuel : pc.length < fuel) (hsplit : split_loop fuel pc cp = some cmds)
    (hrun : runs_accepted env fuel pc cp st = true) :
    1 ≤ cmds.length
    ∧ (∃ st' new, loop env fuel pc cp st = some st'
        ∧ st'.sent = st.sent ++ new
        ∧ List.Forall₂ (fun (e : Sent) cmd => decodings env cmd e.gcode ∧ e.halted = false)
            new cmds
        ∧ (env.is_ok_per_line = true → st'.out = st.out ++ ["ok\r\n".toList])
        ∧ (env.is_ok_per_line = false →
            st'.out = st.out ++ List.replicate cmds.length "ok\r\n".toList))
    ∧ (∀ gc rest (s : State σ), (outcome env gc s).is_error = false →
        (outcome env gc s).txt_after_ok = [] → (outcome env gc s).add_nl = false →
        (env.is_ok_per_line = true → rest ≠ [] → (dispatch env gc rest s).out = s.out)
        ∧ (env.is_ok_per_line = true → rest = [] →
            (dispatch env gc rest s).out = s.out ++ ["ok\r\n".toList])
        ∧ (env.is_ok_per_line = false →
            (dispatch env gc rest s).out = s.out ++ ["ok\r\n".toList]))
    ∧ (∃ st', on_console_line_received (env_ok true) 20 "G1X1M3S100".toList (state0 0 false)
          = some st'
        ∧ st'.out = ["ok\r\n".toList] ∧ st'.sent.length = 2)
    ∧ (∃ st', on_console_line_received (env_ok false) 20 "G1X1M3S100".toList (state0 0 false)
          = some st'
        ∧ st'.out = ["ok\r\n".toList, "ok\r\n".toList] ∧ st'.sent.length = 2) := by
  obtain ⟨st', new, h1, h2, h3, h5, h6⟩ :=
    loop_ok_replies env fuel pc cp st cmds hin hfuel hsplit hrun
  refine ⟨?_, ⟨st', new, h1, h2, h3, fun hp => ?_, h6⟩, ?_, ⟨_, rfl, rfl, rfl⟩,
    ⟨_, rfl, rfl, rfl⟩⟩
  · have hne : cmds ≠ [] := fun h => hpc ((split_loop_nil_iff hsplit).1 h)
    exact List.length_pos.2 hne
  · rw [h5 hp, if_neg hpc]
  · intro gc rest s e1 e2 e3
    exact dispatch_ok_out env gc rest s e1 e2 e3

/-- Witness of the amended C11: `G1X1M3S100` with one ok per line. -/
theorem C11_one_ok_per_line_witness :
    ∃ st' new, loop (env_ok true) 20 "G1X1M3S100".toList none (state0 0 false) = some st'
      ∧ st'.sent = (state0 0 false).sent ++ new
      ∧ List.Forall₂
          (fun (e : Sent) cmd => decodings (env_ok true) cmd e.gcode ∧ e.halted = false)
          new ["G1X1".toList, "M3S100".toList]
      ∧ ((env_ok true).is_ok_per_line = true →
          st'.out = (state0 0 false).out ++ ["ok\r\n".toList])
      ∧ ((env_ok true).is_ok_per_line = false →
          st'.out = (state0 0 false).out
            ++ List.replicate ["G1X1".toList, "M3S100".toList].length "ok\r\n".toList) :=
  (C11_one_ok_per_line (env_ok true) 20 "G1X1M3S100".toList none (state0 0 false)
    ["G1X1".toList, "M3S100".toList] (by decide) (Or.inl rfl) (by decide) (by decide)
    (by decide)).2.1

/-! ## Running the normalizer twice -/

theorem remove_comments_cases (s : Str) :
    remove_comments s = s
    ∨ ∃ k, remove_comments s = s.take k ∧ holds_one_of s ";(".toList k := by
  unfold remove_comments
  cases h : find_first_of s ";(".toList 0 with
  | none => left; rfl
  | some k =>
    right
    exact ⟨k, rfl, (find_first_of_some_iff.1 h).2.1⟩

theorem remove_comments_keeps (pat s : Str) (hpat : ∀ c ∈ pat, c ∉ ";(".toList)
    (h : occurs_at s pat 0) : occurs_at (remove_comments s) pat 0 := by
  have hp : pat <+: s := List.isPrefixOf_iff_prefix.1 (by simpa [occurs_at] using h)
  rcases remove_comments_cases s with hr | ⟨k, hr, c, hc, hk⟩
  · rw [hr]; exact h
  · rw [hr]
    have hkl : pat.length ≤ k := by
      by_contra hcon
      have hlt : k < pat.length := by omega
      obtain ⟨t, rfl⟩ := hp
      rw [List.getElem?_append_left hlt] at hk
      have hmem : c ∈ pat := List.mem_iff_getElem?.2 ⟨k, hk⟩
      exact hpat c hmem hc
    have : pat <+: s.take k := List.prefix_take_iff.2 ⟨hp, hkl⟩
    simpa [occurs_at] using List.isPrefixOf_iff_prefix.2 this

theorem occurs_at_take {s pat : Str} {k q : Nat} (h : occurs_at (s.take k) pat q) :
    occurs_at s pat q := by
  unfold occurs_at at h ⊢
  rw [List.isPrefixOf_iff_prefix] at h ⊢
  rw [List.drop_take] at h
  exact h.trans (List.take_prefix _ _)

theorem contains_remove_comments {s pat : Str}
    (h : contains_token (remove_comments s) pat) : contains_token s pat := by
  obtain ⟨q, hq⟩ := h
  rcases remove_comments_cases s with hr | ⟨k, hr, -⟩
  · rw [hr] at hq; exact ⟨q, hq⟩
  · rw [hr] at hq; exact ⟨q, occurs_at_take hq⟩

theorem head_of_occurs {s pat : Str} {a : Char} (h : occurs_at s (a :: pat) 0) :
    s.head? = some a := by
  have hp : (a :: pat) <+: s := List.isPrefixOf_iff_prefix.1 (by simpa [occurs_at] using h)
  obtain ⟨t, rfl⟩ := hp
  rfl

theorem first_char_of_head {s : Str} {a : Char} (h : s.head? = some a) :
    first_char_of s = a := by
  unfold first_char_of
  rw [List.headD_eq_head?_getD, h]
  rfl

theorem occurs_of_head {s : Str} {a : Char} (h : s.head? = some a) :
    occurs_at s [a] 0 := by
  cases s with
  | nil => simp at h
  | cons b t =>
    simp at h
    subst h
    simp [occurs_at, List.isPrefixOf]

theorem promote_front_G90 {s : Str} (h : occurs_at s "G90".toList 0) :
    promote_G90_G91 s = s := by
  have hf : first_occurrence s "G90".toList 0 := ⟨h, fun q hq => absurd hq (by omega)⟩
  rw [promote_of_G90 hf]
  exact promote_at_front h

theorem promote_front_G91 {s : Str} (h90 : ¬ contains_token s "G90".toList)
    (h : occurs_at s "G91".toList 0) : promote_G90_G91 s = s := by
  have hf : first_occurrence s "G91".toList 0 := ⟨h, fun q hq => absurd hq (by omega)⟩
  rw [promote_of_G91 h90 hf]
  exact promote_at_front h

theorem first_char_of_take (s : Str) (k : Nat) :
    s.take k = [] ∨ first_char_of (s.take k) = first_char_of s := by
  cases k with
  | zero => left; rfl
  | succ k =>
    cases s with
    | nil => left; rfl
    | cons a t => right; rfl

theorem first_char_of_remove_comments (s : Str) :
    remove_comments s = [] ∨ first_char_of (remove_comments s) = first_char_of s := by
  rcases remove_comments_cases s with hr | ⟨k, hr, -⟩
  · right; rw [hr]
  · rw [hr]; exact first_char_of_take s k

theorem first_char_of_stripped (s : Str) :
    first_char_of (remove_comments (strip_line_number s)) ≠ 'N' := by
  rcases first_char_of_remove_comments (strip_line_number s) with h | h
  · rw [h]; decide
  · rw [h]
    unfold strip_line_number
    cases hf : find_first_not_of s "N0123456789.,- ".toList with
    | none =>
      show first_char_of ([] : Str) ≠ 'N'
      decide
    | some j =>
      obtain ⟨-, ⟨c, hc, hp⟩, -⟩ := findFrom_some hf
      simp only [Nat.sub_zero] at hc
      have hfc : first_char_of (substr_from s j) = c := by
        unfold first_char_of substr_from
        rw [List.headD_eq_head?_getD, List.head?_drop, hc]
        rfl
      rw [hfc]
      intro hN
      subst hN
      revert hp
      decide

theorem occurs_at_append_front (pat x : Str) : occurs_at (pat ++ x) pat 0 := by
  unfold occurs_at
  rw [List.drop_zero]
  exact List.isPrefixOf_iff_prefix.2 (List.prefix_append pat x)

theorem ltrim_eq_or_shorter (s : Str) : ltrim s = s ∨ (ltrim s).length < s.length := by
  cases s with
  | nil => left; rfl
  | cons a t =>
    by_cases h : isspace a = true
    · right
      unfold ltrim
      rw [List.dropWhile_cons_of_pos h]
      have := (List.dropWhile_sublist (l := t) isspace).length_le
      simp only [List.length_cons]
      omega
    · left
      unfold ltrim
      rw [List.dropWhile_cons_of_neg h]

theorem remove_comments_eq_or_shorter (s : Str) :
    remove_comments s = s ∨ (remove_comments s).length < s.length := by
  rcases remove_comments_cases s with hr | ⟨k, hr, hk⟩
  · left; exact hr
  · right
    have := holds_one_of_lt hk
    rw [hr, List.length_take]
    omega

theorem strip_line_number_shorter {s : Str} (h : s.head? = some 'N') :
    (strip_line_number s).length < s.length := by
  cases s with
  | nil => simp at h
  | cons a t =>
    simp at h
    subst h
    unfold strip_line_number
    cases hf : find_first_not_of ('N' :: t) "N0123456789.,- ".toList with
    | none => simp
    | some j =>
      obtain ⟨-, ⟨c, hc, hp⟩, -⟩ := findFrom_some hf
      simp only [Nat.sub_zero] at hc
      have hj : j ≠ 0 := by
        intro h0
        subst h0
        simp at hc
        subst hc
        revert hp
        decide
      simp only [substr_from, List.length_drop, List.length_cons]
      omega

theorem head_of_first_char {s : Str} {c : Char} (h : first_char_of s = c)
    (hc : c ≠ Char.ofNat 0) : s.head? = some c := by
  cases s with
  | nil => exact absurd h.symm hc
  | cons a t =>
    have : a = c := h
    rw [this]
    rfl

theorem promote_head_G (y : Str) : occurs_at (promote_G90_G91 ('G' :: y)) ['G'] 0 := by
  unfold promote_G90_G91
  dsimp only
  cases find ('G' :: y) "G90".toList with
  | some p => simp [occurs_at, List.isPrefixOf]
  | none =>
    cases find ('G' :: y) "G91".toList with
    | some p => simp [occurs_at, List.isPrefixOf]
    | none => simp [occurs_at, List.isPrefixOf]

theorem normalize_G_head (y : Str) : (normalize 'G' ('G' :: y)).head? = some 'G' := by
  have h : normalize 'G' ('G' :: y) = remove_comments (promote_G90_G91 ('G' :: y)) := by
    simp [normalize]
  rw [h]
  exact head_of_occurs (remove_comments_keeps ['G'] _ (by decide) (promote_head_G y))

/-- On a line that starts, after `ltrim`, with G, M, T, S, N or `#` the normalizer gives
what lines 80-114 make of the trimmed line. -/
theorem line_normalizer_command {m : Nat} {l : Str} {c : Char}
    (hc : (ltrim l).head? = some c) (hcmd : c ∈ "GMTSN#".toList) :
    line_normalizer m l = some (normalize c (ltrim l)) := by
  have hfc : first_char_of (ltrim l) = c := first_char_of_head hc
  have hne : l.isEmpty = false := by
    cases l with
    | nil => simp [ltrim] at hc
    | cons a t => rfl
  unfold line_normalizer
  simp only [hne, Bool.false_eq_true, if_false, hfc]
  simp only [String.toList, List.mem_cons, List.mem_singleton, List.not_mem_nil,
    or_false] at hcmd
  rcases hcmd with rfl | rfl | rfl | rfl | rfl | rfl <;> simp [islower]

/-- A second run of the normalizer on a line `out` that holds no comment opener, starts
with `G` and is left alone by the promotion gives `out`. -/
theorem line_normalizer_fixed_G {m : Nat} {out : Str} (hhead : out.head? = some 'G')
    (hno : no_index_from out ";(".toList 0) (hprom : promote_G90_G91 out = out) :
    line_normalizer m out = some out := by
  have htrim : ltrim out = out := ltrim_of_head hhead (by decide)
  rw [line_normalizer_command (c := 'G') (by rw [htrim]; exact hhead) (by decide), htrim]
  congr 1
  unfold normalize
  simp only [show ¬ ('G' = 'N') by decide, if_false, if_true, hprom]
  exact remove_comments_of_no_opener hno

/-- A second run of the normalizer on a line `out` that holds no comment opener and
starts with M, T, S or `#` gives `out`. -/
theorem line_normalizer_fixed_other {m : Nat} {out : Str} {c : Char}
    (hhead : out.head? = some c) (hc : c ∈ "MTS#".toList)
    (hno : no_index_from out ";(".toList 0) : line_normalizer m out = some out := by
  simp only [String.toList, List.mem_cons, List.mem_singleton, List.not_mem_nil,
    or_false] at hc
  have hsp : isspace c = false := by rcases hc with rfl | rfl | rfl | rfl <;> decide
  have hG : c ≠ 'G' := by rcases hc with rfl | rfl | rfl | rfl <;> decide
  have hN : c ≠ 'N' := by rcases hc with rfl | rfl | rfl | rfl <;> decide
  have hcmd : c ∈ "GMTSN#".toList := by rcases hc with rfl | rfl | rfl | rfl <;> decide
  have htrim : ltrim out = out := ltrim_of_head hhead hsp
  rw [line_normalizer_command (c := c) (by rw [htrim]; exact hhead) hcmd, htrim]
  congr 1
  unfold normalize
  simp only [hG, hN, if_false]
  exact remove_comments_of_no_opener hno

/-- When a second run of the normalizer gives the line back, the line starts with G, M,
T, S or `#`, and the promotion leaves it alone when it starts with `G`. -/
theorem line_normalizer_fixed_only {m : Nat} {out : Str}
    (h : line_normalizer m out = some out) :
    first_char_of out ∈ "GMTS#".toList
    ∧ (first_char_of out = 'G' → promote_G90_G91 out = out) := by
  unfold line_normalizer at h
  by_cases h0 : out.isEmpty = true
  · rw [if_pos h0] at h; exact absurd h (by simp)
  rw [if_neg h0] at h
  dsimp only at h
  by_cases h1 : first_char_of (ltrim out) = '$'
  · rw [if_pos h1] at h; exact absurd h (by simp)
  by_cases h2 : islower (first_char_of (ltrim out)) = true
  · rw [if_neg h1, if_pos h2] at h; exact absurd h (by simp)
  by_cases h3 : first_char_of (ltrim out) = 'G' ∨ first_char_of (ltrim out) = 'M'
      ∨ first_char_of (ltrim out) = 'T' ∨ first_char_of (ltrim out) = 'S'
      ∨ first_char_of (ltrim out) = 'N' ∨ first_char_of (ltrim out) = '#'
  · rw [if_neg h1, if_neg h2, if_pos h3] at h
    simp only [Option.some.injEq] at h
    have htrim : ltrim out = out := by
      rcases ltrim_eq_or_shorter out with ht | ht
      · exact ht
      · have := normalize_length (first_char_of (ltrim out)) (ltrim out)
        rw [h] at this
        omega
    rw [htrim] at h h3
    have hN : first_char_of out ≠ 'N' := by
      intro hN
      have hhead := head_of_first_char hN (by decide)
      rw [hN] at h
      have h1 : (normalize 'N' out).length ≤ (strip_line_number out).length := by
        unfold normalize
        simp only [if_true, show ¬ ('N' = 'G') by decide, if_false]
        exact remove_comments_length _
      have h2 := strip_line_number_shorter hhead
      rw [h] at h1
      omega
    refine ⟨?_, fun hG => ?_⟩
    · rcases h3 with h3 | h3 | h3 | h3 | h3 | h3
      · rw [h3]; decide
      · rw [h3]; decide
      · rw [h3]; decide
      · rw [h3]; decide
      · exact absurd h3 hN
      · rw [h3]; decide
    · rw [hG] at h
      have hn : remove_comments (promote_G90_G91 out) = out := by
        have : normalize 'G' out = remove_comments (promote_G90_G91 out) := by
          simp [normalize]
        rw [← this]; exact h
      rcases remove_comments_eq_or_shorter (promote_G90_G91 out) with he | he
      · rw [he] at hn; exact hn
      · rw [hn, promote_G90_G91_length] at he
        omega
  by_cases h4 : first_char_of (ltrim out) = ';' ∨ first_char_of (ltrim out) = '('
      ∨ first_char_of (ltrim out) = '\n' ∨ first_char_of (ltrim out) = '\r'
  · rw [if_neg h1, if_neg h2, if_neg h3, if_pos h4] at h; exact absurd h (by simp)
  by_cases h5 : find_first_of (ltrim out) "XYZAF".toList 0 = some 0
      ∨ (first_char_of (ltrim out) = ' '
          ∧ find_first_of (ltrim out) "XYZAF".toList 0 ≠ none)
  · rw [if_neg h1, if_neg h2, if_neg h3, if_neg h4, if_pos h5] at h
    simp only [Option.some.injEq] at h
    exfalso
    obtain ⟨b, hb, -⟩ : ∃ b, (if (ltrim out).getD
        ((find_first_of (ltrim out) "XYZAF".toList 0).getD 0) (Char.ofNat 0) = 'F'
        then "G1 ".toList else snprintf_G m) = 'G' :: b ∧ b.length ≤ 4 := by
      split_ifs
      · exact ⟨" 1".toList.reverse, rfl, by decide⟩
      · exact snprintf_G_cons _
    rw [hb, List.cons_append] at h
    have hhead : out.head? = some 'G' := by
      rw [← h]; exact normalize_G_head _
    have htrim : ltrim out = out := ltrim_of_head hhead (by decide)
    rw [htrim] at h3
    exact h3 (Or.inl (first_char_of_head hhead))
  · rw [if_neg h1, if_neg h2, if_neg h3, if_neg h4, if_neg h5] at h
    exact absurd h (by simp)

/-- The normalizer is what `on_console_line_received` does before the loop: when it gives
`x`, the call is the loop run on `x` (`cmd_pos` being `npos`); when it gives nothing,
the call returns without entering the loop. -/
theorem line_normalizer_run (env : Env σ) (message : Str) (st : State σ) :
    (∀ x, line_normalizer st.modal_group_1 message = some x →
      ∃ k, k ≤ 1 ∧ ∀ fuel, on_console_line_received env (fuel + 2) message st
        = loop env (fuel + k) x none st)
    ∧ (line_normalizer st.modal_group_1 message = none →
      ∃ st', ∀ fuel, on_console_line_received env (fuel + 1) message st = some st') := by
  by_cases h0 : message.isEmpty = true
  · have hln : line_normalizer st.modal_group_1 message = none := by
      unfold line_normalizer; rw [if_pos h0]
    refine ⟨fun x hx => ?_, fun _ => ⟨printf st "ok\r\n".toList, fun fuel => ?_⟩⟩
    · rw [hln] at hx; exact absurd hx (by simp)
    · unfold on_console_line_received
      dsimp only
      rw [if_pos h0]
  have hocl : ∀ fuel, on_console_line_received env fuel message st
      = try_again env fuel (ltrim message) st := by
    intro fuel
    unfold on_console_line_received
    dsimp only
    rw [if_neg h0]
  by_cases h1 : first_char_of (ltrim message) = '$'
  · have hln : line_normalizer st.modal_group_1 message = none := by
      unfold line_normalizer; rw [if_neg h0]; dsimp only; rw [if_pos h1]
    refine ⟨fun x hx => ?_, fun _ => ⟨st, fun fuel => ?_⟩⟩
    · rw [hln] at hx; exact absurd hx (by simp)
    · rw [hocl]; unfold try_again; dsimp only; rw [if_pos h1]
  by_cases h2 : islower (first_char_of (ltrim message)) = true
  · have hln : line_normalizer st.modal_group_1 message = none := by
      unfold line_normalizer; rw [if_neg h0]; dsimp only; rw [if_neg h1, if_pos h2]
    refine ⟨fun x hx => ?_, fun _ => ⟨st, fun fuel => ?_⟩⟩
    · rw [hln] at hx; exact absurd hx (by simp)
    · rw [hocl]; unfold try_again; dsimp only; rw [if_neg h1, if_pos h2]
  by_cases h3 : first_char_of (ltrim message) = 'G' ∨ first_char_of (ltrim message) = 'M'
      ∨ first_char_of (ltrim message) = 'T' ∨ first_char_of (ltrim message) = 'S'
      ∨ first_char_of (ltrim message) = 'N' ∨ first_char_of (ltrim message) = '#'
  · have hln : line_normalizer st.modal_group_1 message
        = some (normalize (first_char_of (ltrim message)) (ltrim message)) := by
      unfold line_normalizer; rw [if_neg h0]; dsimp only
      rw [if_neg h1, if_neg h2, if_pos h3]
    refine ⟨fun x hx => ⟨1, le_refl 1, fun fuel => ?_⟩, fun hn => ?_⟩
    · rw [hln] at hx
      simp only [Option.some.injEq] at hx
      subst hx
      rw [hocl]; unfold try_again; dsimp only; rw [if_neg h1, if_neg h2, if_pos h3]
    · rw [hln] at hn; exact absurd hn (by simp)
  by_cases h4 : first_char_of (ltrim message) = ';' ∨ first_char_of (ltrim message) = '('
      ∨ first_char_of (ltrim message) = '\n' ∨ first_char_of (ltrim message) = '\r'
  · have hln : line_normalizer st.modal_group_1 message = none := by
      unfold line_normalizer; rw [if_neg h0]; dsimp only
      rw [if_neg h1, if_neg h2, if_neg h3, if_pos h4]
    refine ⟨fun x hx => ?_, fun _ => ⟨printf st "ok\n".toList, fun fuel => ?_⟩⟩
    · rw [hln] at hx; exact absurd hx (by simp)
    · rw [hocl]; unfold try_again; dsimp only
      rw [if_neg h1, if_neg h2, if_neg h3, if_pos h4]
  by_cases h5 : find_first_of (ltrim message) "XYZAF".toList 0 = some 0
      ∨ (first_char_of (ltrim message) = ' '
          ∧ find_first_of (ltrim message) "XYZAF".toList 0 ≠ none)
  · have hln : line_normalizer st.modal_group_1 message
        = some (normalize 'G' ((if (ltrim message).getD
            ((find_first_of (ltrim message) "XYZAF".toList 0).getD 0) (Char.ofNat 0) = 'F'
            then "G1 ".toList else snprintf_G st.modal_group_1) ++ ltrim message)) := by
      unfold line_normalizer; rw [if_neg h0]; dsimp only
      rw [if_neg h1, if_neg h2, if_neg h3, if_neg h4, if_pos h5]
    refine ⟨fun x hx => ⟨0, Nat.zero_le 1, fun fuel => ?_⟩, fun hn => ?_⟩
    · rw [hln] at hx
      simp only [Option.some.injEq] at hx
      subst hx
      obtain ⟨b, hb, -⟩ : ∃ b, (if (ltrim message).getD
          ((find_first_of (ltrim message) "XYZAF".toList 0).getD 0) (Char.ofNat 0) = 'F'
          then "G1 ".toList else snprintf_G st.modal_group_1) = 'G' :: b ∧ b.length ≤ 4 := by
        split_ifs
        · exact ⟨" 1".toList.reverse, rfl, by decide⟩
        · exact snprintf_G_cons _
      have hstep : try_again env (fuel + 2) (ltrim message) st
          = try_again env (fuel + 1) ((if (ltrim message).getD
            ((find_first_of (ltrim message) "XYZAF".toList 0).getD 0) (Char.ofNat 0) = 'F'
            then "G1 ".toList else snprintf_G st.modal_group_1) ++ ltrim message) st := by
        conv_lhs => unfold try_again
        dsimp only
        rw [if_neg h1, if_neg h2, if_neg h3, if_neg h4, if_pos h5]
      rw [hocl, hstep, hb, List.cons_append, try_again_command]
      rfl
    · rw [hln] at hn; exact absurd hn (by simp)
  · have hln : line_normalizer st.modal_group_1 message = none := by
      unfold line_normalizer; rw [if_neg h0]; dsimp only
      rw [if_neg h1, if_neg h2, if_neg h3, if_neg h4, if_neg h5]
    refine ⟨fun x hx => ?_, fun _ =>
      ⟨printf st ("ok - ignore: [".toList ++ ltrim message ++ "]\n".toList), fun fuel => ?_⟩⟩
    · rw [hln] at hx; exact absurd hx (by simp)
    · rw [hocl]; unfold try_again; dsimp only
      rw [if_neg h1, if_neg h2, if_neg h3, if_neg h4, if_neg h5]

theorem normalize_no_opener (c : Char) (s : Str) :
    no_index_from (normalize c s) ";(".toList 0 := by
  unfold normalize
  exact remove_comments_no_opener _

/-- C15 fails as stated. `N1G1 G90` is normalized to `G1 G90` (no promotion on a line
that starts with `N`), which a second run turns into `G90G1 `; `GG9190` is normalized to
`G91G90`, which a second run turns into `G90G91`; and `N1` followed by a tab and `M3`
keeps the tab, which a second run trims. -/
theorem C15_counterexample :
    (∀ m, line_normalizer m "N1G1 G90".toList = some "G1 G90".toList)
    ∧ (∀ m, line_normalizer m "G1 G90".toList = some "G90G1 ".toList)
    ∧ "G90G1 ".toList ≠ "G1 G90".toList
    ∧ (∀ m, line_normalizer m "GG9190".toList = some "G91G90".toList)
    ∧ (∀ m, line_normalizer m "G91G90".toList = some "G90G91".toList)
    ∧ "G90G91".toList ≠ "G91G90".toList
    ∧ (∀ m, line_normalizer m "N1\tM3".toList = some "\tM3".toList)
    ∧ (∀ m, line_normalizer m "\tM3".toList = some "M3".toList) :=
  ⟨fun _ => rfl, fun _ => rfl, by decide, fun _ => rfl, fun _ => rfl, by decide,
    fun _ => rfl, fun _ => rfl⟩

/-- C15, amended. For a raw line `l` that starts, after `ltrim`, with G, M, T, S, N or
`#`, the Line Normalizer gives what lines 80-114 make of the trimmed line, and that is
the line the splitting loop is run on. Applying the normalizer to this output gives the
output back exactly when the output starts with G, M, T, S or `#` and, if it starts
with `G`, the G90/G91 promotion leaves it unchanged. That is so for every line that
starts with M, T, S or `#`, and for a line that starts with `G` when `G90` occurs in it
or does not occur in the output. For a line that starts with `N` it is so for
`N10 G1 X5`; it is not for `N1 X5 G90`, whose output `X5 G90` is a parameter-only line
that gets a `G` word in front and is promoted, nor for `N1abc`, whose output is not
normalized at all. -/
theorem C15_normalizer_twice (env : Env σ) (st : State σ) (m : Nat) (l : Str) (c : Char)
    (hc : (ltrim l).head? = some c) (hcmd : c ∈ "GMTSN#".toList) :
    line_normalizer m l = some (normalize c (ltrim l))
    ∧ (∀ fuel, on_console_line_received env (fuel + 2) l st
        = loop env (fuel + 1) (normalize c (ltrim l)) none st)
    ∧ (line_normalizer m (normalize c (ltrim l)) = some (normalize c (ltrim l)) ↔
        first_char_of (normalize c (ltrim l)) ∈ "GMTS#".toList
        ∧ (first_char_of (normalize c (ltrim l)) = 'G' →
            promote_G90_G91 (normalize c (ltrim l)) = normalize c (ltrim l)))
    ∧ (c ∈ "MTS#".toList →
        line_normalizer m (normalize c (ltrim l)) = some (normalize c (ltrim l)))
    ∧ (c = 'G' →
        contains_token (ltrim l) "G90".toList
          ∨ ¬ contains_token (normalize c (ltrim l)) "G90".toList →
        line_normalizer m (normalize c (ltrim l)) = some (normalize c (ltrim l)))
    ∧ line_normalizer m "N10 G1 X5".toList = some "G1 X5".toList
    ∧ line_normalizer m "G1 X5".toList = some "G1 X5".toList
    ∧ line_normalizer 1 "N1 X5 G90".toList = some "X5 G90".toList
    ∧ line_normalizer 1 "X5 G90".toList = some "G90G1 X5 ".toList
    ∧ line_normalizer m "N1abc".toList = some "abc".toList
    ∧ line_normalizer m "abc".toList = none := by
  have hfc : first_char_of (ltrim l) = c := first_char_of_head hc
  have hno := normalize_no_opener c (ltrim l)
  refine ⟨line_normalizer_command hc hcmd, ?_, ⟨line_normalizer_fixed_only, ?_⟩, ?_, ?_,
    rfl, rfl, rfl, rfl, rfl, rfl⟩
  · intro fuel
    obtain ⟨t, ht⟩ : ∃ t, ltrim l = c :: t := by
      cases h : ltrim l with
      | nil => rw [h] at hc; simp at hc
      | cons a t => rw [h] at hc; simp at hc; exact ⟨t, by rw [hc]⟩
    have hne : l.isEmpty = false := by
      cases l with
      | nil => simp [ltrim] at ht
      | cons a as => rfl
    unfold on_console_line_received
    simp only [hne, Bool.false_eq_true, if_false, ht]
    simp only [String.toList, List.mem_cons, List.mem_singleton, List.not_mem_nil,
      or_false] at hcmd
    rcases hcmd with rfl | rfl | rfl | rfl | rfl | rfl <;>
      simp [try_again, first_char_of, islower]
  · rintro ⟨hmem, hprom⟩
    by_cases hG : first_char_of (normalize c (ltrim l)) = 'G'
    · exact line_normalizer_fixed_G (head_of_first_char hG (by decide)) hno (hprom hG)
    · have hmem' : first_char_of (normalize c (ltrim l)) ∈ "MTS#".toList := by
        simp only [String.toList, List.mem_cons, List.mem_singleton, List.not_mem_nil,
          or_false] at hmem ⊢
        rcases hmem with h | h | h | h | h
        · exact absurd h hG
        · exact Or.inl h
        · exact Or.inr (Or.inl h)
        · exact Or.inr (Or.inr (Or.inl h))
        · exact Or.inr (Or.inr (Or.inr h))
      have hnul : first_char_of (normalize c (ltrim l)) ≠ Char.ofNat 0 := by
        intro h0
        rw [h0] at hmem'
        revert hmem'
        decide
      exact line_normalizer_fixed_other (head_of_first_char rfl hnul) hmem' hno
  · intro hM
    have hM' := hM
    simp only [String.toList, List.mem_cons, List.mem_singleton, List.not_mem_nil,
      or_false] at hM'
    have hcG : c ≠ 'G' := by rcases hM' with rfl | rfl | rfl | rfl <;> decide
    have hcN : c ≠ 'N' := by rcases hM' with rfl | rfl | rfl | rfl <;> decide
    have hcop : ∀ x ∈ [c], x ∉ ";(".toList := by
      intro x hx
      simp only [List.mem_singleton] at hx
      subst hx
      rcases hM' with rfl | rfl | rfl | rfl <;> decide
    have hout : normalize c (ltrim l) = remove_comments (ltrim l) := by
      unfold normalize
      simp only [hcG, hcN, if_false]
    have hhead : (normalize c (ltrim l)).head? = some c := by
      rw [hout]
      exact head_of_occurs (remove_comments_keeps [c] _ hcop (occurs_of_head hc))
    exact line_normalizer_fixed_other hhead hM hno
  · intro hG hcond
    subst hG
    have hout : normalize 'G' (ltrim l) = remove_comments (promote_G90_G91 (ltrim l)) := by
      unfold normalize
      simp only [if_true, show ¬ ('G' = 'N') by decide, if_false]
    by_cases h90 : contains_token (ltrim l) "G90".toList
    · cases hf : find (ltrim l) "G90".toList with
      | none => exact absurd h90 ((find_none_iff (by decide)).1 hf)
      | some p =>
        have hp := (find_some_iff (by decide)).1 hf
        have hocc : occurs_at (normalize 'G' (ltrim l)) "G90".toList 0 := by
          rw [hout, promote_of_G90 hp]
          exact remove_comments_keeps _ _ (by decide) (occurs_at_append_front _ _)
        exact line_normalizer_fixed_G (head_of_occurs hocc) hno (promote_front_G90 hocc)
    · have hout90 : ¬ contains_token (normalize 'G' (ltrim l)) "G90".toList :=
        hcond.resolve_left h90
      cases hf : find (ltrim l) "G91".toList with
      | some p =>
        have hp := (find_some_iff (by decide)).1 hf
        have hocc : occurs_at (normalize 'G' (ltrim l)) "G91".toList 0 := by
          rw [hout, promote_of_G91 h90 hp]
          exact remove_comments_keeps _ _ (by decide) (occurs_at_append_front _ _)
        exact line_normalizer_fixed_G (head_of_occurs hocc) hno
          (promote_front_G91 hout90 hocc)
      | none =>
        have h91 : ¬ contains_token (ltrim l) "G91".toList := (find_none_iff (by decide)).1 hf
        have hprom : promote_G90_G91 (ltrim l) = ltrim l := promote_of_none h90 h91
        have hout' : normalize 'G' (ltrim l) = remove_comments (ltrim l) := by
          rw [hout, hprom]
        have hhead : (normalize 'G' (ltrim l)).head? = some 'G' := by
          rw [hout']
          exact head_of_occurs (remove_comments_keeps ['G'] _ (by decide) (occurs_of_head hc))
        have hout91 : ¬ contains_token (normalize 'G' (ltrim l)) "G91".toList := by
          rw [hout']
          exact fun h => h91 (contains_remove_comments h)
        exact line_normalizer_fixed_G hhead hno (promote_of_none hout90 hout91)

/-- Witness of the amended C15: the line ` G1 X5 G90 (to absolute)`. -/
theorem C15_normalizer_twice_witness :
    line_normalizer 1 (normalize 'G' (ltrim " G1 X5 G90 (to absolute)".toList))
      = some (normalize 'G' (ltrim " G1 X5 G90 (to absolute)".toList)) :=
  (C15_normalizer_twice (env_ok false) (state0 1 false) 1
    " G1 X5 G90 (to absolute)".toList 'G' (by decide) (by decide)).2.2.2.2.1 rfl
    (Or.inl ⟨6, by decide⟩)

end GcodeDispatch
